import Mathlib

/-!
Verification development for the SMAIPL Yandex-Metrika report-extraction
pipeline. The definitions below are a shallow embedding of the Python
source under `src/Get Report visits yandex metric/`:

* `get_report_yandex_metrica_sync.py` — the synchronous extraction
  (`remaining_timeout`, `auto_date_chunks`, `build_dataframe`, `fetch_page`,
  `fetch_chunk_all_pages`, request-parameter preparation, output formatting);
* `functions.py` — the streaming sink `fetch_chunk_all_pages_streaming`;
* `get_report_visits_yandex_metric_async.py` — the concurrent variant
  (`detect_dates`, `fetch_all` and the merge loop).

Network effects are abstracted as oracles (`fetch : Nat → Payload` mapping a
requested offset to the decoded response; `List (Except Err Payload)` for the
results of the concurrent gather); wall-clock time is abstracted as the
elapsed-seconds argument of `remaining_timeout`; the streaming file is
modelled as the string of bytes written to it. `while True` loops are given
an explicit fuel argument; exhausting the fuel yields the distinguished
`Err.outOfFuel`, which no theorem ever treats as normal termination.
-/

namespace SMAIPL

/-! ## Calendar core (Python `datetime` arithmetic used by the source) -/

/-- Gregorian leap-year test, as used by Python `datetime`. -/
def isLeap (y : Nat) : Bool := (y % 4 == 0 && y % 100 != 0) || y % 400 == 0

/-- Number of days in month `m` of year `y` (months are 1-based). -/
def daysInMonth (y m : Nat) : Nat :=
  if m = 2 then (if isLeap y then 29 else 28)
  else if m = 4 ∨ m = 6 ∨ m = 9 ∨ m = 11 then 30
  else 31

/-- Days in year `y` strictly before month `m` (so `daysBeforeMonth y 1 = 0`). -/
def daysBeforeMonth (y m : Nat) : Nat :=
  ((List.range (m - 1)).map (fun i => daysInMonth y (i + 1))).sum

/-- Days strictly before January 1 of year `y`, counting from year 1. -/
def daysBeforeYear (y : Nat) : Nat :=
  365 * (y - 1) + (y - 1) / 4 + (y - 1) / 400 - (y - 1) / 100

/-- A calendar date as held by a Python `datetime` (year, month, day). -/
structure Date where
  year : Nat
  month : Nat
  day : Nat
deriving DecidableEq, Repr

/-- Day number of a date (proleptic Gregorian ordinal). Python `datetime`
comparison and subtraction agree with comparison and subtraction of this
ordinal on valid dates. -/
def rataDie (d : Date) : Nat :=
  daysBeforeYear d.year + daysBeforeMonth d.year d.month + d.day

/-- Validity of a date: the combinations `datetime` accepts (year ≥ 1). -/
def ValidDate (d : Date) : Prop :=
  1 ≤ d.year ∧ 1 ≤ d.month ∧ d.month ≤ 12 ∧ 1 ≤ d.day ∧ d.day ≤ daysInMonth d.year d.month

instance (d : Date) : Decidable (ValidDate d) := by
  unfold ValidDate; infer_instance

/-- The day after `d` (`d + timedelta(days=1)`). -/
def succDate (d : Date) : Date :=
  if d.day < daysInMonth d.year d.month then ⟨d.year, d.month, d.day + 1⟩
  else if d.month < 12 then ⟨d.year, d.month + 1, 1⟩
  else ⟨d.year + 1, 1, 1⟩

/-- The day before `d` (`d - timedelta(days=1)`). -/
def predDate (d : Date) : Date :=
  if 1 < d.day then ⟨d.year, d.month, d.day - 1⟩
  else if 1 < d.month then ⟨d.year, d.month - 1, daysInMonth d.year (d.month - 1)⟩
  else ⟨d.year - 1, 12, 31⟩

/-- Adding `n` days (`d + timedelta(days=n)`). -/
def addDays (d : Date) : Nat → Date
  | 0 => d
  | n + 1 => succDate (addDays d n)

/-- Specification-side contract satisfied by each of the three boundary
functions: on a valid date it yields a valid, strictly later first-of-unit
date (whose day is 1 and which is not the very first representable month). -/
def NextOK (next : Date → Date) : Prop :=
  ∀ d, ValidDate d →
    ValidDate (next d) ∧ rataDie d < rataDie (next d) ∧ (next d).day = 1 ∧
      (2 ≤ (next d).month ∨ 2 ≤ (next d).year)

/-! ## Error taxonomy

The sync source raises a single exception class `YandexMetrikaError` whose
distinct message families correspond to the spec's error kinds; each `raise`
site of the source is mapped to the constructor matching its message. -/

/-- Classification of the HTTP error statuses distinguished by `fetch_page`. -/
inductive HttpErrKind where
  | badRequest
  | unauthorized
  | paymentRequired
  | forbidden
  | notFound
  | payloadTooLarge
  | rateLimited
  | serverError (code : Nat)
  | unknown (code : Nat)
deriving DecidableEq, Repr

/-- Error kinds raised across the pipeline. `outOfFuel` is the artefact of
modelling unbounded `while True` loops with fuel and corresponds to
non-termination, never to a `raise` in the source. -/
inductive Err where
  | timeout
  | connectionError
  | httpError (kind : HttpErrKind) (message : String)
  | jsonDecodeError
  | protocolError (offset : Nat)
  | validationError (msg : String)
  | emptyResult
  | outOfFuel
deriving DecidableEq, Repr

/-! ## RangePartitioner (`auto_date_chunks`, sync source lines 98–148) -/

/-- First day of the month after the month of `s`, exactly as the source
computes it: `(start.replace(day=28) + timedelta(days=4)).replace(day=1)`. -/
def nextMonthStart (s : Date) : Date :=
  let t := addDays ⟨s.year, s.month, 28⟩ 4
  ⟨t.year, t.month, 1⟩

/-- First day of the quarter after the quarter of `s`, exactly as the source
computes it: `month = ((start.month - 1) // 3 + 1) * 3 + 1`, rolling the year
when `month > 12`. -/
def nextQuarterStart (s : Date) : Date :=
  let month := ((s.month - 1) / 3 + 1) * 3 + 1
  if month > 12 then ⟨s.year + 1, 1, 1⟩ else ⟨s.year, month, 1⟩

/-- January 1 of the year after `s`:
`start.replace(month=1, day=1, year=start.year + 1)`. -/
def nextYearStart (s : Date) : Date := ⟨s.year + 1, 1, 1⟩

/-- One granularity branch of `auto_date_chunks`. All three `while` loops of
the source have the shape: while `start <= end`, compute the next unit
boundary `b`, yield `(start, min(b - 1 day, end))`, set `start := b`. Python
`min` on datetimes returns its first argument when it is ≤ the second, which
on valid dates is the `rataDie` comparison. The fuel bounds the iteration
count; `auto_date_chunks` supplies one unit of fuel per day of the range,
which is always sufficient since every step advances `start` by ≥ 1 day. -/
def chunkLoopAux (next : Date → Date) (stop : Date) : Nat → Date → List (Date × Date)
  | 0, _ => []
  | fuel + 1, start =>
    if rataDie start ≤ rataDie stop then
      let b := next start
      let chunkEnd := if rataDie (predDate b) ≤ rataDie stop then predDate b else stop
      (start, chunkEnd) :: chunkLoopAux next stop fuel b
    else []

/-- Model of `auto_date_chunks` on already-parsed dates. The source first
validates `date1 <= date2` (raising a validation error otherwise), returns
the whole range as a single chunk when `split` is false, and otherwise picks
the granularity from the total span in days: ≤ 365 → months, ≤ 1825 →
quarters, else years. -/
def auto_date_chunks (date1 date2 : Date) (split : Bool) : Except Err (List (Date × Date)) :=
  if rataDie date2 < rataDie date1 then
    .error (.validationError "date1 greater than date2")
  else if !split then .ok [(date1, date2)]
  else
    let deltaDays := rataDie date2 - rataDie date1
    let next :=
      if deltaDays ≤ 365 then nextMonthStart
      else if deltaDays ≤ 1825 then nextQuarterStart
      else nextYearStart
    .ok (chunkLoopAux next date2 (deltaDays + 1) date1)

/-- Specification-side invariant for a chunk list: `Chunked stop s cs` says
`cs` tiles the day interval from `s` to `stop` left to right — the first
chunk starts at `s`, consecutive chunks are adjacent (each starts the day
after the previous one ends), every chunk is nonempty and stays inside the
range, and the final chunk ends exactly at `stop`. -/
inductive Chunked (stop : Date) : Date → List (Date × Date) → Prop where
  | last (s : Date) (hv : ValidDate s) (hle : rataDie s ≤ rataDie stop) :
      Chunked stop s [(s, stop)]
  | cons (s chunkEnd : Date) (cs : List (Date × Date))
      (hvs : ValidDate s) (hve : ValidDate chunkEnd)
      (h1 : rataDie s ≤ rataDie chunkEnd) (h2 : rataDie chunkEnd < rataDie stop)
      (htail : Chunked stop (succDate chunkEnd) cs) :
      Chunked stop s ((s, chunkEnd) :: cs)

/-! ## Data model of API responses -/

/-- Scalar JSON values carried in API rows. `snull` covers Python `None`
(and the NaN a missing frame cell renders as, which serializes the same way
for the formats at issue). -/
inductive Scalar where
  | sstr (s : String)
  | snum (n : Int)
  | snull
deriving DecidableEq, Repr

/-- A value in a row's metrics list: either a scalar, or one nested list of
scalars — the shape the API uses for multi-period metric sets. -/
inductive Value where
  | scal (v : Scalar)
  | varr (vs : List Scalar)
deriving DecidableEq, Repr

/-- Shorthand for the null value. -/
def Value.vnull : Value := .scal .snull

/-- Shorthand for a numeric value. -/
def Value.vnum (n : Int) : Value := .scal (.snum n)

/-- Shorthand for a string value. -/
def Value.vstr (s : String) : Value := .scal (.sstr s)

/-- One raw API row: `{dimensions: [{name: ...}], metrics: [...]}`. Each
dimension entry is its `name` field as read by `dim.get("name")` (`none`
when the field is absent). -/
structure RawRow where
  dimensions : List (Option Value)
  metrics : List Value
deriving DecidableEq, Repr

/-- The query echo of a response: `{dimensions: [...], metrics: [...]}`. -/
structure Query where
  dimensions : List String
  metrics : List String
deriving DecidableEq, Repr

/-- One decoded page response. `data = none` models a body with no `"data"`
key (the protocol-error case); a present-but-null row list is conflated with
`[]`, exactly how `payload.get("data", []) or []` treats it. `total_rows`
is read by the accumulator but never used, so it is not modelled. -/
structure Payload where
  data : Option (List RawRow)
  query : Query
  sampled : Bool
deriving DecidableEq, Repr

/-! ## TableAssembler (`build_dataframe`, sync source lines 151–177) -/

/-- Splitting a character list at every occurrence of a separator, the
accumulator holding the current segment reversed. This is Python
`str.split(sep)` for a one-character separator: adjacent separators yield
empty segments and the empty string yields one empty segment. -/
def splitOnCharAux (sep : Char) : List Char → List Char → List (List Char)
  | [], cur => [cur.reverse]
  | c :: rest, cur =>
    if c = sep then cur.reverse :: splitOnCharAux sep rest []
    else splitOnCharAux sep rest (c :: cur)

/-- Python `s.split(sep)` for a one-character separator. -/
def pySplit (sep : Char) (s : String) : List String :=
  (splitOnCharAux sep s.data []).map String.mk

/-- Python `s.strip()`: remove leading and trailing whitespace. -/
def pyStrip (s : String) : String :=
  String.mk (((s.data.dropWhile Char.isWhitespace).reverse.dropWhile Char.isWhitespace).reverse)

/-- Trailing `':'`-separated segment of an echoed name: `d.split(":")[-1]`. -/
def lastSegment (s : String) : String := (pySplit ':' s).getLastD ""

/-- Python-dict insertion into an association list: overwrite in place if the
key exists, else append, preserving insertion order. -/
def dictInsert (r : List (String × Value)) (k : String) (v : Value) : List (String × Value) :=
  if r.any (fun p => p.1 = k) then r.map (fun p => if p.1 = k then (k, v) else p)
  else r ++ [(k, v)]

/-- Association-list lookup (first match), i.e. Python dict access. -/
def lookupAssoc (r : List (String × Value)) (k : String) : Option Value :=
  match r with
  | [] => none
  | p :: rest => if p.1 = k then some p.2 else lookupAssoc rest k

/-- The column name chosen for position `j`: the echoed name when the echo
is long enough, else the synthesized placeholder (`dimension_j` /
`metric_j`). -/
def fieldName (names : List String) (placeholder : String) (j : Nat) : String :=
  if j < names.length then names.getD j "" else placeholder ++ toString j

/-- The `for j, v in enumerate(vals): record[fieldName j] = f v` loop of
`build_dataframe`, with the running index explicit. -/
def insertLoop {α : Type} (names : List String) (placeholder : String) (f : α → Value) :
    Nat → List α → List (String × Value) → List (String × Value)
  | _, [], acc => acc
  | j, v :: vs, acc =>
    insertLoop names placeholder f (j + 1) vs
      (dictInsert acc (fieldName names placeholder j) (f v))

/-- The `record` dict `build_dataframe` builds for one raw row: dimension
display names under the echoed dimension column names (placeholder
`dimension_j` past the echo), then the metric values — unwrapped to the
first nested list when the metrics field arrives nested — under the echoed
metric column names (placeholder `metric_j` past the echo). -/
def buildRecord (dimNames metNames : List String) (row : RawRow) : List (String × Value) :=
  let withDims :=
    insertLoop dimNames "dimension_" (fun o => o.getD .vnull) 0 row.dimensions []
  let metrics :=
    match row.metrics with
    | .varr l :: _ => l.map Value.scal
    | ms => ms
  insertLoop metNames "metric_" (fun v => v) 0 metrics withDims

/-- A pandas `DataFrame` as observed by the claims: its ordered column list
and its cells, row-major. Constructing `pd.DataFrame(rows, columns=cols)`
from a list of dicts selects, for each row, the value stored under each
column name in order (absent keys become null cells). -/
structure Frame where
  cols : List String
  cells : List (List Value)
deriving DecidableEq, Repr

/-- Model of `build_dataframe`: column names are the trailing segments of
the echoed dimension names followed by those of the echoed metric names;
each data row contributes one record dict, realigned under that schema. -/
def build_dataframe (query : Query) (rows : List RawRow) : Frame :=
  let dimNames := query.dimensions.map lastSegment
  let metNames := query.metrics.map lastSegment
  let cols := dimNames ++ metNames
  { cols := cols
    cells := rows.map (fun row =>
      let record := buildRecord dimNames metNames row
      cols.map (fun c => (lookupAssoc record c).getD .vnull)) }

/-! ## TimeBudget (`remaining_timeout`, sync source lines 86–95) -/

/-- Model of `remaining_timeout`: `elapsed` abstracts
`time.perf_counter() - start_time`. The source computes
`left = global_timeout - elapsed` and raises the time-limit error when
`left <= 0`, returning `left` otherwise. -/
def remaining_timeout (global_timeout elapsed : ℚ) : Except Err ℚ :=
  let left := global_timeout - elapsed
  if left ≤ 0 then .error .timeout else .ok left

/-! ## PageFetcher error classification (`fetch_page`, sync source lines 180–222) -/

/-- The error-body view of a response: the fields
`error_json.get("message")` and, for each entry of `error_json.get("errors")`,
that entry's `"message"` field. An absent field is `none`. -/
structure ErrBody where
  message : Option String
  errors : Option (List (Option String))
deriving DecidableEq, Repr

/-- An HTTP response as seen by `fetch_page`'s error handler: the status
code, the body parsed as JSON when parseable (`none` when `resp.json()`
raises), and the raw body text. -/
structure HttpResponse where
  status : Nat
  errBody : Option ErrBody
  text : String
deriving DecidableEq, Repr

/-- Message extraction of `fetch_page`:
`error_json.get("message") or error_json.get("errors", [{}])[0].get("message", "")`,
with the whole extraction falling back to `resp.text` when the body is not
parseable JSON — or when the chained expression itself raises (which happens
when `errors` is present but an empty list, an `IndexError` caught by the
same `except Exception` handler). An empty-string `message` field is falsy
in Python, so it also falls through to the `errors` chain. -/
def extract_message (r : HttpResponse) : String :=
  match r.errBody with
  | none => r.text
  | some b =>
    let fallback : Option String :=
      match b.errors with
      | none => some ""
      | some [] => none
      | some (e :: _) => some (e.getD "")
    match b.message with
    | some m => if m = "" then fallback.getD r.text else m
    | none => fallback.getD r.text

/-- The status → kind table of `fetch_page`'s `except HTTPError` branch. -/
def classify_status (code : Nat) (message : String) : Err :=
  if code = 400 then .httpError .badRequest message
  else if code = 401 then .httpError .unauthorized message
  else if code = 402 then .httpError .paymentRequired message
  else if code = 403 then .httpError .forbidden message
  else if code = 404 then .httpError .notFound message
  else if code = 413 then .httpError .payloadTooLarge message
  else if code = 429 then .httpError .rateLimited message
  else if code ≥ 500 then .httpError (.serverError code) message
  else .httpError (.unknown code) message

/-- The outcome of the network call inside `fetch_page`, before
classification: a timeout, a connection failure, or a response. -/
inductive NetResult where
  | timedOut
  | connFailed
  | response (r : HttpResponse)
deriving DecidableEq, Repr

/-- Classification slice of `fetch_page`: `requests` raises `Timeout` /
`ConnectionError` for the first two outcomes; `resp.raise_for_status()`
raises `HTTPError` exactly for statuses in `[400, 600)`, which `fetch_page`
maps through `classify_status` with the extracted message; otherwise the
body is returned via `resp.json()` (whose own decode failure propagates).
The success payload is abstracted to `Unit` here — the claims about
`fetch_page` concern only its classification behaviour, and the page
contents reach the accumulators through their fetch oracles. -/
def fetch_page_classify (n : NetResult) : Except Err Unit :=
  match n with
  | .timedOut => .error .timeout
  | .connFailed => .error .connectionError
  | .response r =>
    if 400 ≤ r.status ∧ r.status < 600 then
      .error (classify_status r.status (extract_message r))
    else if r.errBody.isNone then .error .jsonDecodeError
    else .ok ()

/-! ## OutputSink serialization

`df.to_csv(index=False)` writes the comma-joined column names, a newline,
then one comma-joined line per row; `df.to_json(orient="records")` writes a
single JSON array of objects; `df.to_json(orient="records", lines=True)`
writes the same objects newline-separated with no surrounding array.

Crucially, pandas renders each cell according to the dtype its column was
INFERRED to have in the particular DataFrame being serialized: a column of
plain ints is `int64` and prints `5`, but one missing value (NaN) anywhere
in the column coerces it to `float64` and every int in it then prints as
`5.0` (and the missing cell as the empty field / `null`); a non-numeric
value makes the column `object`, rendering each cell by itself. Since the
streaming sink builds one DataFrame per page while the buffered sink builds
one for the whole table, the same row can be rendered differently by the
two sinks. `inferDtype`/`frameDtypes` model that inference and every
serializer below renders through it. -/

/-- The column dtypes pandas infers that are distinguishable in the output:
an all-int column (`int64`), a numeric column containing a missing value
(`float64`), and everything else (`object`; an all-null column, really
`object`/all-NaN in pandas, renders identically to `float64` here). -/
inductive ColDtype where
  | intCol
  | floatCol
  | objCol
deriving DecidableEq, Repr

/-- Dtype inference for one column's cells. -/
def inferDtype (cells : List Value) : ColDtype :=
  if cells.all (fun v => match v with
      | .scal (.snum _) => true
      | .scal .snull => true
      | _ => false) then
    if cells.any (fun v => match v with
        | .scal .snull => true
        | _ => false) then .floatCol
    else .intCol
  else .objCol

/-- The inferred dtype of each column of a frame, in column order. -/
def frameDtypes (f : Frame) : List ColDtype :=
  (List.range f.cols.length).map
    (fun j => inferDtype (f.cells.map (fun row => row.getD j Value.vnull)))

/-- Python `str` of one scalar, as it appears inside a stringified list. -/
def strScalar (v : Scalar) : String :=
  match v with
  | .snull => "None"
  | .sstr s => "'" ++ s ++ "'"
  | .snum n => toString n

/-- CSV rendering of one cell under its column's dtype: null renders as the
empty field, an int in a `float64` column renders with the `.0` suffix. -/
def csvCell (dt : ColDtype) (v : Value) : String :=
  match v with
  | .scal .snull => ""
  | .scal (.sstr s) => s
  | .scal (.snum n) => if dt = .floatCol then toString n ++ ".0" else toString n
  | .varr vs => "[" ++ String.intercalate ", " (vs.map strScalar) ++ "]"

/-- JSON rendering of one scalar (inside a nested list, where no column
dtype applies). -/
def jsonScalar (v : Scalar) : String :=
  match v with
  | .snull => "null"
  | .sstr s => "\"" ++ s ++ "\""
  | .snum n => toString n

/-- JSON rendering of one cell under its column's dtype. -/
def jsonCell (dt : ColDtype) (v : Value) : String :=
  match v with
  | .scal .snull => "null"
  | .scal (.sstr s) => "\"" ++ s ++ "\""
  | .scal (.snum n) => if dt = .floatCol then toString n ++ ".0" else toString n
  | .varr vs => "[" ++ String.intercalate "," (vs.map jsonScalar) ++ "]"

/-- One CSV data line of a frame row, each cell under its column's dtype. -/
def csvLine (dts : List ColDtype) (cells : List Value) : String :=
  String.intercalate "," ((dts.zip cells).map (fun p => csvCell p.1 p.2)) ++ "\n"

/-- The CSV body (no header) of a list of rows under fixed column dtypes. -/
def csvBodyWith (dts : List ColDtype) (rows : List (List Value)) : String :=
  String.join (rows.map (csvLine dts))

/-- CSV serialization of a frame, with or without the header line —
`df.to_csv(f, index=False, header=h)` — under the frame's own dtypes. -/
def serializeCsv (f : Frame) (header : Bool) : String :=
  (if header then String.intercalate "," f.cols ++ "\n" else "") ++
    csvBodyWith (frameDtypes f) f.cells

/-- One JSON object for a frame row: `\x7b"col":value,...\x7d`, each value
under its column's dtype. -/
def jsonRecord (cols : List String) (dts : List ColDtype) (cells : List Value) : String :=
  "\x7b" ++
    String.intercalate ","
      (((cols.zip dts).zip cells).map
        (fun p => "\"" ++ p.1.1 ++ "\":" ++ jsonCell p.1.2 p.2)) ++
  "\x7d"

/-- Buffered JSON serialization: `df.to_json(orient="records")` — one array. -/
def serializeJsonRecords (f : Frame) : String :=
  "[" ++ String.intercalate "," (f.cells.map (jsonRecord f.cols (frameDtypes f))) ++ "]"

/-- Streaming JSON serialization of one flush:
`df.to_json(orient="records", lines=True)` — newline-separated records. -/
def serializeNdjson (f : Frame) : String :=
  String.intercalate "\n" (f.cells.map (jsonRecord f.cols (frameDtypes f)))

/-- Output format choice (`output_format` argument). -/
inductive OutFormat where
  | csv
  | json
deriving DecidableEq, Repr

/-- The buffered sink of the sync entry point (lines 362–366): assemble the
whole frame once, then `df.to_json(orient="records")` for `"json"` and
`df.to_csv(index=False)` otherwise. -/
def buffered_output (query : Query) (rows : List RawRow) (fmt : OutFormat) : String :=
  let df := build_dataframe query rows
  match fmt with
  | .json => serializeJsonRecords df
  | .csv => serializeCsv df true

/-! ## Streaming sink (`fetch_chunk_all_pages_streaming`, functions.py lines 21–68) -/

/-- The bytes one flush appends to the streaming file:
`df.to_csv(f, index=False, header=not header_written)` in csv mode, and
`f.writelines(df.to_json(orient="records", lines=True, ...) + "\n")` in
json mode. -/
def flushPiece (fmt : OutFormat) (df : Frame) (headerWritten : Bool) : String :=
  match fmt with
  | .csv => serializeCsv df (!headerWritten)
  | .json => serializeNdjson df ++ "\n"

/-- Loop body state of the streaming sink, threaded explicitly: current
offset, the query echo captured from the first page (`none` before it),
the global sampled flag, `header_written`, the bytes written to the file so
far, and — as instrumentation for the equivalence statement — the nonempty
pages consumed so far. On normal termination the file contents, the captured
query, the sampled flag and the consumed pages are returned. -/
def streamAux (fetch : Nat → Payload) (batch : Nat) (fmt : OutFormat) :
    Nat → Nat → Option Query → Bool → Bool → String → List (List RawRow) →
    Except Err (String × Query × Bool × List (List RawRow))
  | 0, _, _, _, _, _, _ => .error .outOfFuel
  | fuel + 1, offset, query?, sampled, headerWritten, acc, pages =>
    match (fetch offset).data with
    | none => .error (.protocolError offset)
    | some dataRows =>
      let q := query?.getD (fetch offset).query
      let sampled' := sampled || (fetch offset).sampled
      if dataRows.isEmpty then .ok (acc, q, sampled', pages)
      else
        let acc' := acc ++ flushPiece fmt (build_dataframe q dataRows) headerWritten
        let pages' := pages ++ [dataRows]
        if dataRows.length < batch then .ok (acc', q, sampled', pages')
        else streamAux fetch batch fmt fuel (offset + batch) (some q) sampled' true acc' pages'

/-- Model of `fetch_chunk_all_pages_streaming`: starts at offset 1 with an
empty file, no captured query, and the header not yet written. -/
def fetch_chunk_all_pages_streaming (fetch : Nat → Payload) (batch : Nat) (fmt : OutFormat)
    (fuel : Nat) : Except Err (String × Query × Bool × List (List RawRow)) :=
  streamAux fetch batch fmt fuel 1 none false false "" []

/-! ## ChunkAccumulator (`fetch_chunk_all_pages`, sync source lines 224–269) -/

/-- Python slice `l[:m]` for an `int` bound `m`: nonnegative `m` keeps the
first `m` elements; negative `m` drops the last `-m`. -/
def pySliceTo (l : List RawRow) (m : Int) : List RawRow :=
  if 0 ≤ m then l.take m.toNat else l.take ((l.length : Int) + m).toNat

/-- Python truthiness of the optional `max_rows` value in
`if max_rows and len(all_rows) >= max_rows`. -/
def maxRowsHit (maxRows : Option Int) (accumulated : Nat) : Bool :=
  match maxRows with
  | none => false
  | some m => m ≠ 0 && (m ≤ (accumulated : Int))

/-- Result of one chunk's accumulation: the dict
`{"query": query, "data": all_rows}` the source returns, plus — as
instrumentation for the request-count claims — the list of offsets actually
requested. `query` is `none` only if no page ever carried it, mirroring the
`query = None` initialisation. -/
structure FetchResult where
  query : Option Query
  data : List RawRow
  offsets : List Nat
deriving DecidableEq, Repr

/-- Loop of `fetch_chunk_all_pages`, state threaded explicitly. Per
iteration: fetch the page at the current offset; a body without a `"data"`
key is a protocol error; the query echo is captured from the first page;
rows are appended; then, in this order: the `max_rows` ceiling check (trim
and stop), the short-page check (stop), else advance the offset by the page
size. The `total_rows` and `sampled` fields are read by the source but do
not affect the returned dict, so they are not threaded here. -/
def fetchChunkAux (fetch : Nat → Payload) (batch : Nat) (maxRows : Option Int) :
    Nat → Nat → List RawRow → Option Query → List Nat → Except Err FetchResult
  | 0, _, _, _, _ => .error .outOfFuel
  | fuel + 1, offset, allRows, query?, offs =>
    match (fetch offset).data with
    | none => .error (.protocolError offset)
    | some dataRows =>
      let query' := some (query?.getD (fetch offset).query)
      let allRows' := allRows ++ dataRows
      let offs' := offs ++ [offset]
      if maxRowsHit maxRows allRows'.length then
        .ok ⟨query', pySliceTo allRows' (maxRows.getD 0), offs'⟩
      else if dataRows.length < batch then .ok ⟨query', allRows', offs'⟩
      else fetchChunkAux fetch batch maxRows fuel (offset + batch) allRows' query' offs'

/-- Model of `fetch_chunk_all_pages`: offsets start at 1. -/
def fetch_chunk_all_pages (fetch : Nat → Payload) (batch : Nat) (maxRows : Option Int)
    (fuel : Nat) : Except Err FetchResult :=
  fetchChunkAux fetch batch maxRows fuel 1 [] none []

/-- Normalisation of the `max_rows` argument at the sync entry point
(line 284): `max_rows = int(arguments.get("max_rows", 0)) or None` — an
absent argument defaults to `0`, and a zero value becomes `None`. -/
def py_max_rows (arg : Option Int) : Option Int :=
  let v := arg.getD 0
  if v = 0 then none else some v

/-! ## ConcurrentChunkRunner (`fetch_all` and the merge loop, async source) -/

/-- Model of `fetch_all`: `asyncio.gather(*tasks, return_exceptions=True)`
yields, in task order, either a decoded response dict or the exception the
task raised; the comprehension `[r for r in results if isinstance(r, dict)]`
keeps exactly the successful responses. -/
def fetch_all (results : List (Except Err Payload)) : List Payload :=
  results.filterMap (fun r => match r with | .ok p => some p | .error _ => none)

/-- The merge loop of the async entry point (lines 369–378): the query echo
is taken from the first surviving response, and every surviving response's
rows are appended in order. -/
def merge_results (rs : List Payload) : Option Query × List RawRow :=
  rs.foldl
    (fun acc r => (acc.1.orElse (fun _ => some r.query), acc.2 ++ r.data.getD []))
    (none, [])

/-! ## Request-parameter preparation (sync source lines 287–310) -/

/-- The arguments relevant to parameter preparation, as optional strings
(string-typed inputs; an absent dict key is `none`). The source also accepts
already-split lists for `metrics`/`dimensions` and passes them through
unchanged — only the documented string form is modelled. -/
structure Arguments where
  ids : String
  date1 : String
  date2 : String
  lang : String
  metrics : Option String
  dimensions : Option String
  filters : Option String
  preset : Option String
  sort : Option String
deriving DecidableEq, Repr

/-- The request-parameter dict actually issued; `none` means the key is not
present in `params`. -/
structure Params where
  ids : String
  lang : String
  date1 : String
  date2 : String
  metrics : Option (List String)
  dimensions : Option (List String)
  filters : Option String
  preset : Option String
  sort : Option String
deriving DecidableEq, Repr

/-- Python truthiness of an optional string (`None` and `""` are falsy). -/
def truthyStr (o : Option String) : Bool :=
  match o with
  | none => false
  | some s => s ≠ ""

/-- The comma-split normalisation applied to a manual field:
`[m.strip() for m in metrics.split(",") if m.strip()]`. -/
def splitTrim (s : String) : List String :=
  ((pySplit ',' s).map pyStrip).filter (fun t => t ≠ "")

/-- Model of the parameter-preparation block:
`use_manual_config = bool(metrics and dimensions)`; in manual mode the split
manual fields (plus `filters` when truthy) are sent and no preset; otherwise
`params["preset"] = preset or "traffic"` and no manual fields; `sort` is
sent whenever truthy. -/
def build_params (a : Arguments) : Params :=
  let useManualConfig := truthyStr a.metrics && truthyStr a.dimensions
  let base : Params :=
    { ids := a.ids, lang := a.lang, date1 := a.date1, date2 := a.date2
      metrics := none, dimensions := none, filters := none, preset := none
      sort := if truthyStr a.sort then a.sort else none }
  if useManualConfig then
    { base with
        metrics := some (splitTrim (a.metrics.getD ""))
        dimensions := some (splitTrim (a.dimensions.getD ""))
        filters := if truthyStr a.filters then a.filters else none }
  else
    { base with preset := some (if truthyStr a.preset then a.preset.getD "" else "traffic") }

/-! ## Free-text date extraction (`detect_dates`, async source lines 175–198) -/

/-- Attempt to match the regex `\d\x7b4\x7d-\d\x7b2\x7d-\d\x7b2\x7d` at the
head of a character list, returning the ten matched characters and the
remainder on success. -/
def matchDateShape : List Char → Option (List Char × List Char)
  | a :: b :: c :: d :: s1 :: e :: f :: s2 :: g :: h :: rest =>
    if a.isDigit && b.isDigit && c.isDigit && d.isDigit && s1 = '-' &&
       e.isDigit && f.isDigit && s2 = '-' && g.isDigit && h.isDigit then
      some ([a, b, c, d, '-', e, f, '-', g, h], rest)
    else none
  | _ => none

/-- Left-to-right non-overlapping scan for the date shape, as
`re.findall(r"\d\x7b4\x7d-\d\x7b2\x7d-\d\x7b2\x7d", text)` performs it:
at each position, take a match and continue after it, else advance one
character. The fuel is the number of characters, which suffices because
every step consumes at least one. -/
def findDatesAux : Nat → List Char → List String
  | 0, _ => []
  | fuel + 1, cs =>
    match matchDateShape cs with
    | some (m, rest) => String.mk m :: findDatesAux fuel rest
    | none =>
      match cs with
      | [] => []
      | _ :: t => findDatesAux fuel t

/-- All date-shaped substrings of `text`, in order of occurrence. -/
def findDates (text : String) : List String := findDatesAux text.data.length text.data

/-- Numeric value of a digit character. -/
def digitVal (c : Char) : Nat := c.toNat - '0'.toNat

/-- Parse of one date-shaped candidate, as
`datetime.strptime(candidate, "%Y-%m-%d")` behaves on the strings the regex
can produce: read the three numeric fields and accept exactly the
combinations `datetime` accepts (year ≥ 1, month 1–12, day within the
month); anything else raises `ValueError`, modelled as `none`. -/
def parseDateStr (s : String) : Option Date :=
  match s.data with
  | [a, b, c, d, s1, e, f, s2, g, h] =>
    if a.isDigit && b.isDigit && c.isDigit && d.isDigit && s1 = '-' &&
       e.isDigit && f.isDigit && s2 = '-' && g.isDigit && h.isDigit then
      let y := digitVal a * 1000 + digitVal b * 100 + digitVal c * 10 + digitVal d
      let m := digitVal e * 10 + digitVal f
      let dd := digitVal g * 10 + digitVal h
      if ValidDate ⟨y, m, dd⟩ then some ⟨y, m, dd⟩ else none
    else none
  | _ => none

/-- Left-pad a numeral with zeros to the given width. -/
def padNum (width n : Nat) : String :=
  let s := toString n
  String.mk (List.replicate (width - s.length) '0') ++ s

/-- Python `d.strftime("%Y-%m-%d")` for the in-range dates at issue. -/
def fmtDate (d : Date) : String :=
  padNum 4 d.year ++ "-" ++ padNum 2 d.month ++ "-" ++ padNum 2 d.day

/-- Model of `detect_dates`: collect the date-shaped substrings; fewer than
two raises a validation error; otherwise parse exactly the first two
candidates (either failure raises a validation error); swap them when the
first is later than the second (`datetime` comparison is chronological,
i.e. `rataDie` order on valid dates); return them formatted. -/
def detect_dates (text : String) : Except Err (String × String) :=
  match findDates text with
  | c0 :: c1 :: _ =>
    match parseDateStr c0, parseDateStr c1 with
    | some d1, some d2 =>
      let p := if rataDie d2 < rataDie d1 then (d2, d1) else (d1, d2)
      .ok (fmtDate p.1, fmtDate p.2)
    | _, _ => .error (.validationError "bad date format, use YYYY-MM-DD")
  | _ => .error (.validationError "could not detect both dates")

deriving instance DecidableEq for Except

/-! ## Concrete fixtures used by witnesses and counterexamples -/

/-- A query echo with no dimensions and one metric. -/
def sampleQuery : Query := ⟨[], ["ym:s:visits"]⟩

/-- A row with no dimensions and one numeric metric. -/
def sampleRow : RawRow := ⟨[], [Value.vnum 5]⟩

/-- An oracle whose every page holds exactly 40 rows. -/
def fetch40 : Nat → Payload := fun _ => ⟨some (List.replicate 40 sampleRow), sampleQuery, false⟩

/-- An oracle whose first page holds a single row (short for any batch ≥ 2). -/
def fetchOne : Nat → Payload := fun _ => ⟨some [sampleRow], sampleQuery, false⟩

/-- A row whose single metric is missing (`null` in the API response). -/
def rowNull : RawRow := ⟨[], [Value.vnull]⟩

/-- An oracle serving an int row, then a null row, then the end marker —
one row per page when `batch = 1`, so the two rows land in different
per-page frames while sharing one column of the whole-table frame. -/
def fetchMixed : Nat → Payload := fun off =>
  if off = 1 then ⟨some [sampleRow], sampleQuery, false⟩
  else if off = 2 then ⟨some [rowNull], sampleQuery, false⟩
  else ⟨some [], sampleQuery, false⟩

/-- An oracle whose very first page is already empty. -/
def fetchEmpty : Nat → Payload := fun _ => ⟨some [], sampleQuery, false⟩

/-! # Theorems -/

/-! ## C4 — TimeBudget -/

/-- C4: `remaining_timeout` returns the configured total seconds minus the
elapsed time when that difference is positive, and fails with the
Timeout-kind error when the difference is ≤ 0. -/
theorem remaining_timeout_spec (total elapsed : ℚ) :
    (0 < total - elapsed → remaining_timeout total elapsed = .ok (total - elapsed)) ∧
    (total - elapsed ≤ 0 → remaining_timeout total elapsed = .error .timeout) := by
  refine ⟨fun h => ?_, fun h => ?_⟩ <;> simp only [remaining_timeout]
  · rw [if_neg (by linarith)]
  · rw [if_pos h]

/-- Witness for C4: a 3-second budget with 1 second elapsed returns 2
seconds; a 1-second budget queried after 2 seconds have elapsed fails with
the Timeout classification. -/
theorem remaining_timeout_spec_witness :
    remaining_timeout 3 1 = .ok 2 ∧ remaining_timeout 1 2 = .error .timeout := by
  constructor
  · have h := (remaining_timeout_spec 3 1).1 (by norm_num)
    norm_num at h
    exact h
  · exact (remaining_timeout_spec 1 2).2 (by norm_num)

/-! ## C6 — ConcurrentChunkRunner failure policy -/

/-- Helper: the merged row list of the concurrent merge loop is the ordered
concatenation of each surviving response's rows. -/
theorem merge_results_data (ps : List Payload) :
    (merge_results ps).2 = (ps.map (fun p => p.data.getD [])).flatten := by
  suffices h : ∀ (q : Option Query) (acc : List RawRow),
      (ps.foldl
        (fun acc r => (acc.1.orElse (fun _ => some r.query), acc.2 ++ r.data.getD []))
        (q, acc)).2 = acc ++ (ps.map (fun p => p.data.getD [])).flatten by
    simpa [merge_results] using h none []
  induction ps with
  | nil => intro q acc; simp
  | cons p ps ih => intro q acc; simp [ih, List.append_assoc]

/-- C6 (amended): in the concurrent regime an errored chunk is silently
dropped from the gathered results while every successful chunk survives in
order, and the merged rows are exactly the surviving chunks' rows — but no
count of excluded chunks is surfaced (see the counterexample theorem). -/
theorem fetch_all_best_effort :
    (∀ (rs1 rs2 : List (Except Err Payload)) (e : Err),
        fetch_all (rs1 ++ .error e :: rs2) = fetch_all (rs1 ++ rs2)) ∧
    (∀ ps : List Payload, fetch_all (ps.map .ok) = ps) ∧
    (∀ rs : List (Except Err Payload),
        (merge_results (fetch_all rs)).2 =
          ((fetch_all rs).map (fun p => p.data.getD [])).flatten) := by
  refine ⟨fun rs1 rs2 e => ?_, fun ps => ?_, fun rs => merge_results_data _⟩
  · simp [fetch_all, List.filterMap_append]
  · simp [fetch_all]
    induction ps with
    | nil => rfl
    | cons p ps ih => simp [List.filterMap_cons, ih]

/-- C6 (counterexample): the gathered output of a run with one successful
and one failed chunk is identical to that of a run with the successful chunk
alone — the caller receives no count (nor any other trace) of the excluded
chunks, refuting the claim that such a count is surfaced. -/
theorem fetch_all_counterexample :
    fetch_all [.ok ⟨some [sampleRow], sampleQuery, false⟩, .error .connectionError] =
      fetch_all [.ok ⟨some [sampleRow], sampleQuery, false⟩] ∧
    (fetch_all [.ok ⟨some [sampleRow], sampleQuery, false⟩, .error .connectionError]).length = 1 := by
  exact ⟨rfl, rfl⟩

/-! ## C8 — manual fields versus preset -/

/-- C8 (amended): the manual query fields override the preset exactly when
both a truthy metric list and a truthy dimension list are supplied; in every
other case the issued parameters omit the manual fields and carry the preset
(defaulted to "traffic"). -/
theorem build_params_manual_mode (a : Arguments) :
    (truthyStr a.metrics = true → truthyStr a.dimensions = true →
      (build_params a).metrics = some (splitTrim (a.metrics.getD "")) ∧
      (build_params a).dimensions = some (splitTrim (a.dimensions.getD "")) ∧
      (build_params a).preset = none) ∧
    (¬(truthyStr a.metrics = true ∧ truthyStr a.dimensions = true) →
      (build_params a).metrics = none ∧ (build_params a).dimensions = none ∧
      (build_params a).preset =
        some (if truthyStr a.preset then a.preset.getD "" else "traffic")) := by
  constructor
  · intro hm hd
    simp [build_params, hm, hd]
  · intro h
    have hcond : (truthyStr a.metrics && truthyStr a.dimensions) = false := by
      cases hm : truthyStr a.metrics <;> cases hd : truthyStr a.dimensions <;> simp_all
    simp [build_params, hcond]

/-- Witness for C8 (amended): with both manual fields and a preset supplied,
the issued parameters carry the split manual fields and omit the preset. -/
theorem build_params_manual_mode_witness :
    (build_params ⟨"44147844", "2024-01-01", "2024-01-07", "en",
        some "ym:s:visits, ym:s:users", some "ym:s:deviceCategory", none,
        some "conversion", none⟩).metrics = some ["ym:s:visits", "ym:s:users"] ∧
    (build_params ⟨"44147844", "2024-01-01", "2024-01-07", "en",
        some "ym:s:visits, ym:s:users", some "ym:s:deviceCategory", none,
        some "conversion", none⟩).preset = none := by
  have h := (build_params_manual_mode ⟨"44147844", "2024-01-01", "2024-01-07", "en",
    some "ym:s:visits, ym:s:users", some "ym:s:deviceCategory", none,
    some "conversion", none⟩).1 (by decide) (by decide)
  refine ⟨?_, h.2.2⟩
  rw [h.1]
  decide

/-- C8 (counterexample): with a metric list supplied but no dimension list,
the issued parameters keep the preset and omit the metrics entirely —
refuting the claim that manual fields override the preset when a metric list
and/or a dimension list is present. -/
theorem build_params_counterexample :
    truthyStr (Arguments.mk "44147844" "2024-01-01" "2024-01-07" "en"
        (some "ym:s:visits") none none (some "conversion") none).metrics = true ∧
    (build_params (Arguments.mk "44147844" "2024-01-01" "2024-01-07" "en"
        (some "ym:s:visits") none none (some "conversion") none)).preset =
      some "conversion" ∧
    (build_params (Arguments.mk "44147844" "2024-01-01" "2024-01-07" "en"
        (some "ym:s:visits") none none (some "conversion") none)).metrics = none := by
  refine ⟨by decide, ?_, ?_⟩ <;> rfl

/-! ## C5 — PageFetcher status classification -/

/-- C5: every 404 response raises the NotFound kind carrying the extracted
message; the extracted message is the body's `message` field when the body
parses and that field is truthy, and the raw body text when the body does
not parse; the remaining named statuses 400, 401, 402, 403, 413, 429 and
5xx map to their respective kinds, and any other error status in the
`raise_for_status` range maps to the Unknown kind. -/
theorem fetch_page_classification (r : HttpResponse) :
    (r.status = 404 →
      fetch_page_classify (.response r) =
        .error (.httpError .notFound (extract_message r))) ∧
    (∀ b m, r.errBody = some b → b.message = some m → m ≠ "" → extract_message r = m) ∧
    (r.errBody = none → extract_message r = r.text) ∧
    (r.status = 400 →
      fetch_page_classify (.response r) =
        .error (.httpError .badRequest (extract_message r))) ∧
    (r.status = 401 →
      fetch_page_classify (.response r) =
        .error (.httpError .unauthorized (extract_message r))) ∧
    (r.status = 402 →
      fetch_page_classify (.response r) =
        .error (.httpError .paymentRequired (extract_message r))) ∧
    (r.status = 403 →
      fetch_page_classify (.response r) =
        .error (.httpError .forbidden (extract_message r))) ∧
    (r.status = 413 →
      fetch_page_classify (.response r) =
        .error (.httpError .payloadTooLarge (extract_message r))) ∧
    (r.status = 429 →
      fetch_page_classify (.response r) =
        .error (.httpError .rateLimited (extract_message r))) ∧
    (500 ≤ r.status → r.status < 600 →
      fetch_page_classify (.response r) =
        .error (.httpError (.serverError r.status) (extract_message r))) ∧
    (400 ≤ r.status → r.status < 500 →
      r.status ∉ ([400, 401, 402, 403, 404, 413, 429] : List Nat) →
      fetch_page_classify (.response r) =
        .error (.httpError (.unknown r.status) (extract_message r))) := by
  refine ⟨?_, ?_, ?_, ?_, ?_, ?_, ?_, ?_, ?_, ?_, ?_⟩
  · intro h
    simp [fetch_page_classify, h, classify_status]
  · intro b m hb hm hne
    simp [extract_message, hb, hm, hne]
  · intro h
    simp [extract_message, h]
  · intro h
    simp [fetch_page_classify, h, classify_status]
  · intro h
    simp [fetch_page_classify, h, classify_status]
  · intro h
    simp [fetch_page_classify, h, classify_status]
  · intro h
    simp [fetch_page_classify, h, classify_status]
  · intro h
    simp [fetch_page_classify, h, classify_status]
  · intro h
    simp [fetch_page_classify, h, classify_status]
  · intro h1 h2
    have hin : 400 ≤ r.status ∧ r.status < 600 := by omega
    obtain ⟨e1, e2, e3, e4, e5, e6, e7, e8⟩ :
        r.status ≠ 400 ∧ r.status ≠ 401 ∧ r.status ≠ 402 ∧ r.status ≠ 403 ∧
          r.status ≠ 404 ∧ r.status ≠ 413 ∧ r.status ≠ 429 ∧ 500 ≤ r.status := by omega
    simp only [fetch_page_classify, if_pos hin]
    unfold classify_status
    rw [if_neg e1, if_neg e2, if_neg e3, if_neg e4, if_neg e5, if_neg e6, if_neg e7,
        if_pos e8]
  · intro h1 h2 hnot
    simp only [List.mem_cons, List.not_mem_nil] at hnot
    push_neg at hnot
    have hin : 400 ≤ r.status ∧ r.status < 600 := by omega
    have e8 : ¬500 ≤ r.status := by omega
    simp only [fetch_page_classify, if_pos hin]
    unfold classify_status
    obtain ⟨n1, n2, n3, n4, n5, n6, n7, -⟩ := hnot
    rw [if_neg n1, if_neg n2, if_neg n3, if_neg n4, if_neg n5, if_neg n6, if_neg n7,
        if_neg e8]

/-- Witness for C5: a concrete 404 response whose body parses with message
field "not found" is classified NotFound with exactly that message. -/
theorem fetch_page_classification_witness :
    fetch_page_classify (.response ⟨404, some ⟨some "not found", none⟩, "raw body"⟩) =
      .error (.httpError .notFound "not found") ∧
    extract_message ⟨404, some ⟨some "not found", none⟩, "raw body"⟩ = "not found" := by
  have h1 := (fetch_page_classification ⟨404, some ⟨some "not found", none⟩, "raw body"⟩).1 rfl
  have h2 := (fetch_page_classification ⟨404, some ⟨some "not found", none⟩, "raw body"⟩).2.1
    ⟨some "not found", none⟩ "not found" rfl rfl (by decide)
  exact ⟨by rw [h1, h2], h2⟩

/-! ## C3 — accumulator row ceiling -/

/-- Unfolding lemma: one iteration of the accumulator loop on a page whose
body carries a `"data"` field. -/
theorem fetchChunkAux_step_some (fetch : Nat → Payload) (batch : Nat) (maxRows : Option Int)
    (fuel offset : Nat) (allRows : List RawRow) (q? : Option Query) (offs : List Nat)
    (dataRows : List RawRow) (hdata : (fetch offset).data = some dataRows) :
    fetchChunkAux fetch batch maxRows (fuel + 1) offset allRows q? offs =
      (if maxRowsHit maxRows (allRows ++ dataRows).length then
        .ok ⟨some (q?.getD (fetch offset).query),
             pySliceTo (allRows ++ dataRows) (maxRows.getD 0), offs ++ [offset]⟩
      else if dataRows.length < batch then
        .ok ⟨some (q?.getD (fetch offset).query), allRows ++ dataRows, offs ++ [offset]⟩
      else
        fetchChunkAux fetch batch maxRows fuel (offset + batch) (allRows ++ dataRows)
          (some (q?.getD (fetch offset).query)) (offs ++ [offset])) := by
  conv_lhs => rw [fetchChunkAux]
  rw [hdata]

/-- C3: with `max_rows = 50` and every page carrying exactly 40 rows at page
size 40, the accumulator requests exactly the offsets 1 and 41 — stopping
after the second page — and returns exactly 50 rows (the merged 80 trimmed
to the ceiling). -/
theorem fetch_chunk_max_rows_50 (fetch : Nat → Payload)
    (h : ∀ off, ∃ rs, (fetch off).data = some rs ∧ rs.length = 40)
    (fuel : Nat) (hf : 2 ≤ fuel) :
    ∃ res, fetch_chunk_all_pages fetch 40 (some 50) fuel = .ok res ∧
      res.offsets = [1, 41] ∧ res.data.length = 50 := by
  obtain ⟨k, rfl⟩ : ∃ k, fuel = k + 2 := ⟨fuel - 2, by omega⟩
  obtain ⟨rs1, h1, l1⟩ := h 1
  obtain ⟨rs2, h2, l2⟩ := h 41
  have e1 : fetchChunkAux fetch 40 (some 50) (k + 1 + 1) 1 [] none [] =
      fetchChunkAux fetch 40 (some 50) (k + 1) 41 rs1 (some (fetch 1).query) [1] := by
    rw [fetchChunkAux_step_some fetch 40 (some 50) (k + 1) 1 [] none [] rs1 h1]
    simp [maxRowsHit, l1]
  have e2 : fetchChunkAux fetch 40 (some 50) (k + 1) 41 rs1 (some (fetch 1).query) [1] =
      .ok ⟨some (fetch 1).query, (rs1 ++ rs2).take 50, [1, 41]⟩ := by
    rw [fetchChunkAux_step_some fetch 40 (some 50) k 41 rs1 (some (fetch 1).query) [1] rs2 h2]
    have hlen : (rs1 ++ rs2).length = 80 := by simp [l1, l2]
    simp [maxRowsHit, hlen, pySliceTo]
  refine ⟨_, e1.trans e2, rfl, ?_⟩
  simp [List.length_take, l1, l2]

/-- Witness for C3: the constant 40-row oracle with fuel 2 requests offsets
1 and 41 and yields 50 rows. -/
theorem fetch_chunk_max_rows_50_witness :
    ∃ res, fetch_chunk_all_pages fetch40 40 (some 50) 2 = .ok res ∧
      res.offsets = [1, 41] ∧ res.data.length = 50 := by
  exact fetch_chunk_max_rows_50 fetch40
    (fun off => ⟨List.replicate 40 sampleRow, rfl, by simp⟩) 2 (by norm_num)

/-! ## C9 — max_rows = 0 disables the ceiling -/

/-- Helper: with no row ceiling configured, a successful accumulator run
returns exactly the concatenation of every fetched page, in offset order:
the ceiling branch never fires and nothing is ever trimmed. -/
theorem fetchChunkAux_no_ceiling (fetch : Nat → Payload) (batch : Nat) :
    ∀ (fuel offset : Nat) (allRows : List RawRow) (q? : Option Query) (offs : List Nat)
      (res : FetchResult),
      fetchChunkAux fetch batch none fuel offset allRows q? offs = .ok res →
      ∃ newOffs, res.offsets = offs ++ newOffs ∧
        res.data = allRows ++ (newOffs.map (fun o => (fetch o).data.getD [])).flatten := by
  intro fuel
  induction fuel with
  | zero =>
    intro offset allRows q? offs res h
    exact absurd h (by simp [fetchChunkAux])
  | succ k ih =>
    intro offset allRows q? offs res h
    unfold fetchChunkAux at h
    cases hdata : (fetch offset).data with
    | none => rw [hdata] at h; simp at h
    | some dataRows =>
      rw [hdata] at h
      simp only [maxRowsHit, Bool.false_eq_true, if_false] at h
      by_cases hshort : dataRows.length < batch
      · rw [if_pos hshort] at h
        simp only [Except.ok.injEq] at h
        subst h
        exact ⟨[offset], by simp, by simp [hdata]⟩
      · rw [if_neg hshort] at h
        obtain ⟨no, hoffs, hdat⟩ := ih (offset + batch) (allRows ++ dataRows) _ (offs ++ [offset]) res h
        refine ⟨offset :: no, ?_, ?_⟩
        · simpa using hoffs
        · simp only [List.map_cons, List.flatten_cons, hdata, Option.getD_some]
          simpa [List.append_assoc] using hdat

/-- C9: a `max_rows` argument of 0 (or an omitted one) normalises to no
ceiling at the entry point, the accumulator run is then literally the run
with no ceiling configured, and such a run returns every row the oracle
yields (the concatenation of all fetched pages, untrimmed). -/
theorem max_rows_zero_disables_ceiling :
    py_max_rows (some 0) = none ∧ py_max_rows none = none ∧
    (∀ (fetch : Nat → Payload) (batch fuel : Nat),
      fetch_chunk_all_pages fetch batch (py_max_rows (some 0)) fuel =
        fetch_chunk_all_pages fetch batch none fuel) ∧
    (∀ (fetch : Nat → Payload) (batch fuel : Nat) (res : FetchResult),
      fetch_chunk_all_pages fetch batch none fuel = .ok res →
      res.data = (res.offsets.map (fun o => (fetch o).data.getD [])).flatten) := by
  refine ⟨rfl, rfl, fun fetch batch fuel => rfl, fun fetch batch fuel res h => ?_⟩
  obtain ⟨no, hoffs, hdat⟩ := fetchChunkAux_no_ceiling fetch batch fuel 1 [] none [] res h
  rw [hoffs]
  simpa using hdat

/-- Witness for C9: a single short page under no ceiling is returned whole,
matching the concatenation of the fetched pages. -/
theorem max_rows_zero_disables_ceiling_witness :
    ∃ res, fetch_chunk_all_pages fetchOne 2 none 1 = .ok res ∧
      res.data = (res.offsets.map (fun o => (fetchOne o).data.getD [])).flatten := by
  refine ⟨⟨some sampleQuery, [sampleRow], [1]⟩, by rfl, ?_⟩
  exact max_rows_zero_disables_ceiling.2.2.2 fetchOne 2 1
    ⟨some sampleQuery, [sampleRow], [1]⟩ (by rfl)

/-! ## C7 — assembled table schema -/

/-- Helper: inserting under a key absent from the dict appends the pair. -/
theorem dictInsert_fresh (acc : List (String × Value)) (k : String) (v : Value)
    (h : ∀ p ∈ acc, p.1 ≠ k) : dictInsert acc k v = acc ++ [(k, v)] := by
  have hcond : (acc.any fun p => p.1 = k) = false := by
    rw [List.any_eq_false]
    intro p hp
    simp [h p hp]
  unfold dictInsert
  rw [hcond]
  simp

/-- Helper: when the echo provides a name for every inserted position and
those names are distinct and absent from the accumulator, the insertion loop
appends exactly the name–value pairs in position order. -/
theorem insertLoop_spec {α : Type} (names : List String) (ph : String) (f : α → Value) :
    ∀ (vs : List α) (j : Nat) (acc : List (String × Value)),
      j + vs.length ≤ names.length → names.Nodup →
      (∀ p ∈ acc, p.1 ∉ names.drop j) →
      insertLoop names ph f j vs acc = acc ++ (names.drop j).zip (vs.map f) := by
  intro vs
  induction vs with
  | nil => intro j acc _ _ _; simp [insertLoop]
  | cons v vs ih =>
    intro j acc hlen hnodup hfresh
    have hj : j < names.length := by simp at hlen; omega
    have hname : fieldName names ph j = names[j] := by
      unfold fieldName
      rw [if_pos hj, List.getD_eq_getElem names "" hj]
    have hdropj : names.drop j = names[j] :: names.drop (j + 1) :=
      List.drop_eq_getElem_cons hj
    have hfresh' : ∀ p ∈ acc, p.1 ≠ names[j] ∧ p.1 ∉ names.drop (j + 1) := by
      intro p hp
      have hthis := hfresh p hp
      rw [hdropj, List.mem_cons] at hthis
      push_neg at hthis
      exact hthis
    have hnodrop : names[j] ∉ names.drop (j + 1) := by
      have hsub : (names.drop j).Nodup := (List.drop_sublist j names).nodup hnodup
      rw [hdropj] at hsub
      exact (List.nodup_cons.mp hsub).1
    have hfresh2 : ∀ p ∈ acc ++ [(names[j], f v)], p.1 ∉ names.drop (j + 1) := by
      intro p hp
      simp only [List.mem_append, List.mem_singleton] at hp
      rcases hp with hp | hp
      · exact (hfresh' p hp).2
      · subst hp
        exact hnodrop
    unfold insertLoop
    rw [hname, dictInsert_fresh acc names[j] (f v) (fun p hp => (hfresh' p hp).1)]
    rw [ih (j + 1) (acc ++ [(names[j], f v)]) (by simp at hlen ⊢; omega) hnodup hfresh2]
    rw [List.map_cons, hdropj, List.zip_cons_cons]
    simp [List.append_assoc]

/-- Helper: looking a distinct column list up in its own zip recovers the
values positionally. -/
theorem lookup_zip (cols : List String) (vals : List Value) :
    cols.Nodup → cols.length = vals.length →
    cols.map (fun c => (lookupAssoc (cols.zip vals) c).getD .vnull) = vals := by
  induction cols generalizing vals with
  | nil => intro _ h; simpa using (List.length_eq_zero.mp h.symm).symm
  | cons c cols ih =>
    intro hnodup hlen
    cases vals with
    | nil => simp at hlen
    | cons v vals =>
      have hne : ∀ c' ∈ cols, c ≠ c' := fun c' hc' heq =>
        (List.nodup_cons.mp hnodup).1 (heq ▸ hc')
      simp only [List.zip_cons_cons, List.map_cons]
      rw [show lookupAssoc ((c, v) :: cols.zip vals) c = some v by simp [lookupAssoc]]
      have hmap : cols.map (fun c' => (lookupAssoc ((c, v) :: cols.zip vals) c').getD .vnull) =
          cols.map (fun c' => (lookupAssoc (cols.zip vals) c').getD .vnull) := by
        apply List.map_congr_left
        intro c' hc'
        rw [show lookupAssoc ((c, v) :: cols.zip vals) c' = lookupAssoc (cols.zip vals) c' by
          simp [lookupAssoc, hne c' hc']]
      rw [hmap, ih vals (List.nodup_cons.mp hnodup).2 (by simpa using hlen)]
      simp

/-- Helper: for a row of exactly matching arity with flat metrics and a
collision-free schema, the record dict is the schema zipped with the row's
values in order: dimension display names first, then the metric values. -/
theorem buildRecord_exact (dimNames metNames : List String) (row : RawRow)
    (hd : row.dimensions.length = dimNames.length)
    (hflat : ∀ v ∈ row.metrics, ∀ vs, v ≠ Value.varr vs)
    (hm : row.metrics.length = metNames.length)
    (hnodup : (dimNames ++ metNames).Nodup) :
    buildRecord dimNames metNames row =
      (dimNames ++ metNames).zip
        (row.dimensions.map (fun o => o.getD .vnull) ++ row.metrics) := by
  have hdnodup : dimNames.Nodup := (List.nodup_append.mp hnodup).1
  have hmnodup : metNames.Nodup := (List.nodup_append.mp hnodup).2.1
  have hdisj : dimNames.Disjoint metNames := List.disjoint_of_nodup_append hnodup
  have hmetrics : (match row.metrics with
      | .varr l :: _ => l.map Value.scal
      | ms => ms) = row.metrics := by
    cases hrm : row.metrics with
    | nil => rfl
    | cons m ms =>
      cases m with
      | scal s => rfl
      | varr l =>
        exact absurd rfl (hflat (Value.varr l) (by rw [hrm]; exact List.mem_cons_self _ _) l)
  unfold buildRecord
  rw [hmetrics]
  rw [insertLoop_spec dimNames "dimension_" (fun o => o.getD .vnull) row.dimensions 0 []
      (by simpa using hd.le) hdnodup (by simp)]
  rw [insertLoop_spec metNames "metric_" (fun v => v) row.metrics 0 _
      (by simpa using hm.le) hmnodup ?_]
  · rw [List.drop_zero, List.drop_zero, List.nil_append,
        List.zip_append (by simpa using hd.symm)]
    simp
  · intro p hp
    simp only [List.nil_append, List.drop_zero] at hp ⊢
    have hmem := (List.of_mem_zip ((Prod.mk.eta (p := p)) ▸ hp)).1
    exact fun hcontra => hdisj hmem hcontra

/-- C7: for a query echo with `N` dimension names and `M` metric names and
rows each carrying exactly `N` dimension entries and a flat list of exactly
`M` metric values, the assembled table has exactly `N + M` columns — the
trailing segments of the dimension names in echo order followed by those of
the metric names in echo order — and (for a collision-free schema) each
row's cells are its dimension display names followed by its metric values,
aligned under that schema regardless of how the record was keyed. -/
theorem build_dataframe_schema (q : Query) (rows : List RawRow)
    (harity : ∀ r ∈ rows, r.dimensions.length = q.dimensions.length ∧
        (∀ v ∈ r.metrics, ∀ vs, v ≠ Value.varr vs) ∧
        r.metrics.length = q.metrics.length) :
    (build_dataframe q rows).cols =
        q.dimensions.map lastSegment ++ q.metrics.map lastSegment ∧
    (build_dataframe q rows).cols.length = q.dimensions.length + q.metrics.length ∧
    ((q.dimensions.map lastSegment ++ q.metrics.map lastSegment).Nodup →
      (build_dataframe q rows).cells =
        rows.map (fun r => r.dimensions.map (fun o => o.getD .vnull) ++ r.metrics)) := by
  refine ⟨rfl, by simp [build_dataframe], fun hnodup => ?_⟩
  show rows.map _ = _
  apply List.map_congr_left
  intro r hr
  obtain ⟨hd, hflat, hm⟩ := harity r hr
  rw [buildRecord_exact _ _ r (by simpa using hd) hflat (by simpa using hm) hnodup]
  apply lookup_zip _ _ hnodup
  simp [hd, hm]

/-- Witness for C7: a concrete echo with one dimension and two metrics and a
matching row yields the three-column schema with aligned cells. -/
theorem build_dataframe_schema_witness :
    (build_dataframe ⟨["ym:s:regionCityName"], ["ym:s:visits", "ym:s:users"]⟩
        [⟨[some (Value.vstr "Moscow")], [Value.vnum 3, Value.vnum 4]⟩]).cols =
      ["regionCityName", "visits", "users"] ∧
    (build_dataframe ⟨["ym:s:regionCityName"], ["ym:s:visits", "ym:s:users"]⟩
        [⟨[some (Value.vstr "Moscow")], [Value.vnum 3, Value.vnum 4]⟩]).cells =
      [[Value.vstr "Moscow", Value.vnum 3, Value.vnum 4]] := by
  have h := build_dataframe_schema ⟨["ym:s:regionCityName"], ["ym:s:visits", "ym:s:users"]⟩
    [⟨[some (Value.vstr "Moscow")], [Value.vnum 3, Value.vnum 4]⟩]
    (by intro r hr; simp at hr; subst hr; refine ⟨rfl, ?_, rfl⟩
        intro v hv vs
        simp [Value.vnum] at hv
        rcases hv with h3 | h4 <;> subst_vars <;> simp [Value.vnum])
  refine ⟨?_, ?_⟩
  · rw [h.1]; rfl
  · rw [h.2.2 (by decide)]; rfl

/-! ## C10 — free-text date extraction -/

/-- Unfolding lemma: once the candidate scan yields at least two shaped
substrings, `detect_dates` is the parse-and-sort of the first two. -/
theorem detect_dates_eq (text c0 c1 : String) (rest : List String)
    (hf : findDates text = c0 :: c1 :: rest) :
    detect_dates text =
      (match parseDateStr c0, parseDateStr c1 with
      | some d1, some d2 =>
        let p := if rataDie d2 < rataDie d1 then (d2, d1) else (d1, d2)
        .ok (fmtDate p.1, fmtDate p.2)
      | _, _ => .error (.validationError "bad date format, use YYYY-MM-DD")) := by
  unfold detect_dates
  rw [hf]

/-- C10 (amended): when the left-to-right scan finds at least two date-shaped
substrings and the first two of them both parse, `detect_dates` returns
exactly those two dates in chronological order (swapping when the first
occurs later); it raises a validation error when fewer than two shaped
substrings are found, and also — contrary to the original claim — when
either of the first two shaped substrings fails to parse, regardless of how
many later substrings would parse. -/
theorem detect_dates_spec (text : String) :
    ((findDates text).length < 2 →
      detect_dates text = .error (.validationError "could not detect both dates")) ∧
    (∀ c0 c1 rest, findDates text = c0 :: c1 :: rest →
      (((parseDateStr c0).isNone ∨ (parseDateStr c1).isNone) →
        detect_dates text = .error (.validationError "bad date format, use YYYY-MM-DD")) ∧
      (∀ d1 d2, parseDateStr c0 = some d1 → parseDateStr c1 = some d2 →
        ∃ a b, detect_dates text = .ok (fmtDate a, fmtDate b) ∧
          rataDie a ≤ rataDie b ∧
          ((a = d1 ∧ b = d2) ∨ (a = d2 ∧ b = d1)))) := by
  constructor
  · intro hlen
    unfold detect_dates
    match hf : findDates text with
    | [] => rfl
    | [c] => rfl
    | c0 :: c1 :: rest =>
      rw [hf, List.length_cons, List.length_cons] at hlen
      omega
  · intro c0 c1 rest hf
    constructor
    · intro hnone
      rw [detect_dates_eq text c0 c1 rest hf]
      rcases hnone with h0 | h0 <;> rw [Option.isNone_iff_eq_none] at h0 <;> rw [h0]
      cases parseDateStr c0 <;> rfl
    · intro d1 d2 h1 h2
      rw [detect_dates_eq text c0 c1 rest hf, h1, h2]
      by_cases hlt : rataDie d2 < rataDie d1
      · refine ⟨d2, d1, ?_, by omega, Or.inr ⟨rfl, rfl⟩⟩
        show (let p := if rataDie d2 < rataDie d1 then (d2, d1) else (d1, d2)
          Except.ok (fmtDate p.1, fmtDate p.2)) = _
        rw [if_pos hlt]
      · refine ⟨d1, d2, ?_, by omega, Or.inl ⟨rfl, rfl⟩⟩
        show (let p := if rataDie d2 < rataDie d1 then (d2, d1) else (d1, d2)
          Except.ok (fmtDate p.1, fmtDate p.2)) = _
        rw [if_neg hlt]

/-- Witness for C10 (amended): a text whose two date-shaped substrings occur
latest-first is returned swapped into chronological order. -/
theorem detect_dates_spec_witness :
    ∃ a b, detect_dates "period 2024-05-10 through 2024-02-01" =
        .ok (fmtDate a, fmtDate b) ∧
      rataDie a ≤ rataDie b ∧
      ((a = ⟨2024, 5, 10⟩ ∧ b = ⟨2024, 2, 1⟩) ∨ (a = ⟨2024, 2, 1⟩ ∧ b = ⟨2024, 5, 10⟩)) := by
  exact ((detect_dates_spec "period 2024-05-10 through 2024-02-01").2
    "2024-05-10" "2024-02-01" [] (by decide)).2 ⟨2024, 5, 10⟩ ⟨2024, 2, 1⟩
    (by decide) (by decide)

/-- C10 (counterexample): the text "2024-13-01 2024-01-02 2024-01-03"
contains (at least) two date-shaped substrings that parse as valid dates,
yet the extractor raises a validation error, because it parses only the
first two shaped candidates and the first ("2024-13-01") is not a valid
date — refuting the claim that the first two parseable dates are returned. -/
theorem detect_dates_counterexample :
    ((findDates "2024-13-01 2024-01-02 2024-01-03").filter
        (fun c => (parseDateStr c).isSome)).length = 2 ∧
    2 ≤ (findDates "2024-13-01 2024-01-02 2024-01-03").length ∧
    detect_dates "2024-13-01 2024-01-02 2024-01-03" =
      .error (.validationError "bad date format, use YYYY-MM-DD") := by
  refine ⟨by decide, by decide, by decide⟩

/-! ## C2 — streaming versus buffered output -/

/-- Helper: folding string concatenation from any seed prepends the seed to
the join. -/
theorem string_foldl_join (l : List String) :
    ∀ s : String, l.foldl (fun a b => a ++ b) s = s ++ String.join l := by
  induction l with
  | nil => intro s; simp [String.join]
  | cons a l ih =>
    intro s
    show l.foldl _ (s ++ a) = _
    rw [ih (s ++ a)]
    have hj : String.join (a :: l) = a ++ String.join l := by
      show l.foldl _ ("" ++ a) = _
      rw [ih ("" ++ a)]
      rfl
    rw [hj, String.append_assoc]

/-- Helper: joining concatenated string lists concatenates the joins. -/
theorem string_join_append (l1 l2 : List String) :
    String.join (l1 ++ l2) = String.join l1 ++ String.join l2 := by
  show (l1 ++ l2).foldl _ "" = _
  rw [List.foldl_append]
  exact string_foldl_join l2 (String.join l1)

/-- Helper: the cells of the frame of concatenated row lists are the
concatenated cells of the two frames (the schema is shared, coming from the
query alone). -/
theorem build_dataframe_cells_append (q : Query) (r1 r2 : List RawRow) :
    (build_dataframe q (r1 ++ r2)).cells =
      (build_dataframe q r1).cells ++ (build_dataframe q r2).cells := by
  simp [build_dataframe]

/-- Helper: a fixed-dtype CSV body splits across a row-list split. -/
theorem csvBodyWith_append (dts : List ColDtype) (r1 r2 : List (List Value)) :
    csvBodyWith dts (r1 ++ r2) = csvBodyWith dts r1 ++ csvBodyWith dts r2 := by
  unfold csvBodyWith
  rw [List.map_append, string_join_append]

/-- Helper: headerless CSV serialization is the body of the frame's cells
under the frame's own inferred dtypes. -/
theorem serializeCsv_false (f : Frame) :
    serializeCsv f false = csvBodyWith (frameDtypes f) f.cells := by
  simp [serializeCsv]

/-- Helper: headered CSV serialization is the header line then the body. -/
theorem serializeCsv_true (f : Frame) :
    serializeCsv f true =
      (String.intercalate "," f.cols ++ "\n") ++ serializeCsv f false := by
  simp [serializeCsv]

/-- Unfolding lemma: one iteration of the streaming loop on a page whose
body carries a `"data"` field. -/
theorem streamAux_step_some (fetch : Nat → Payload) (batch : Nat) (fmt : OutFormat)
    (fuel offset : Nat) (q? : Option Query) (sampled headerWritten : Bool) (acc : String)
    (pages : List (List RawRow)) (dataRows : List RawRow)
    (hdata : (fetch offset).data = some dataRows) :
    streamAux fetch batch fmt (fuel + 1) offset q? sampled headerWritten acc pages =
      (if dataRows.isEmpty then
        .ok (acc, q?.getD (fetch offset).query, sampled || (fetch offset).sampled, pages)
      else if dataRows.length < batch then
        .ok (acc ++ flushPiece fmt (build_dataframe (q?.getD (fetch offset).query) dataRows)
               headerWritten,
             q?.getD (fetch offset).query, sampled || (fetch offset).sampled,
             pages ++ [dataRows])
      else
        streamAux fetch batch fmt fuel (offset + batch) (some (q?.getD (fetch offset).query))
          (sampled || (fetch offset).sampled) true
          (acc ++ flushPiece fmt (build_dataframe (q?.getD (fetch offset).query) dataRows)
             headerWritten)
          (pages ++ [dataRows])) := by
  conv_lhs => rw [streamAux]
  rw [hdata]

/-- Helper (steady state): once the query echo is captured and the header
has been written, a successful csv streaming run appends to the file each
consumed page's csv body rendered under that page frame's own dtypes; when
every consumed page frame infers one common dtype row `D`, the appended
bytes equal the fixed-`D` body of all the consumed rows at once. -/
theorem streamAux_csv_steady (fetch : Nat → Payload) (batch : Nat) (q0 : Query)
    (D : List ColDtype) :
    ∀ (fuel offset : Nat) (sampled : Bool) (acc : String) (pages : List (List RawRow))
      (content : String) (qf : Query) (sf : Bool) (pf : List (List RawRow)),
      streamAux fetch batch .csv fuel offset (some q0) sampled true acc pages =
        .ok (content, qf, sf, pf) →
      qf = q0 ∧ ∃ np, pf = pages ++ np ∧
        ((∀ p ∈ np, frameDtypes (build_dataframe q0 p) = D) →
          content = acc ++ csvBodyWith D (build_dataframe q0 np.flatten).cells) := by
  intro fuel
  induction fuel with
  | zero =>
    intro offset sampled acc pages content qf sf pf h
    exact absurd h (by simp [streamAux])
  | succ k ih =>
    intro offset sampled acc pages content qf sf pf h
    cases hdata : (fetch offset).data with
    | none =>
      rw [streamAux] at h
      rw [hdata] at h
      simp at h
    | some dataRows =>
      rw [streamAux_step_some fetch batch .csv k offset (some q0) sampled true acc pages
          dataRows hdata] at h
      simp only [Option.getD_some] at h
      by_cases hemp : dataRows.isEmpty
      · rw [if_pos hemp] at h
        simp only [Except.ok.injEq, Prod.mk.injEq] at h
        obtain ⟨hc, hq, -, hp⟩ := h
        refine ⟨hq.symm, [], by simp [hp.symm], fun _ => ?_⟩
        rw [← hc]
        simp [csvBodyWith, build_dataframe, String.join]
      · rw [if_neg hemp] at h
        by_cases hshort : dataRows.length < batch
        · rw [if_pos hshort] at h
          simp only [Except.ok.injEq, Prod.mk.injEq] at h
          obtain ⟨hc, hq, -, hp⟩ := h
          refine ⟨hq.symm, [dataRows], by simp [hp.symm], fun hD => ?_⟩
          rw [← hc]
          have hfl : ([dataRows] : List (List RawRow)).flatten = dataRows := by simp
          rw [hfl]
          have hD1 : frameDtypes (build_dataframe q0 dataRows) = D := hD dataRows (by simp)
          show acc ++ serializeCsv (build_dataframe q0 dataRows) false =
            acc ++ csvBodyWith D (build_dataframe q0 dataRows).cells
          rw [serializeCsv_false, hD1]
        · rw [if_neg hshort] at h
          obtain ⟨hq, np, hpf, hcontent⟩ := ih (offset + batch) _ _ _ _ _ _ _ h
          refine ⟨hq, dataRows :: np, by simp [hpf], fun hD => ?_⟩
          have hD1 : frameDtypes (build_dataframe q0 dataRows) = D := hD dataRows (by simp)
          have hDnp : ∀ p ∈ np, frameDtypes (build_dataframe q0 p) = D :=
            fun p hp => hD p (by simp [hp])
          rw [hcontent hDnp, List.flatten_cons, build_dataframe_cells_append,
              csvBodyWith_append]
          show acc ++ serializeCsv (build_dataframe q0 dataRows) false ++
              csvBodyWith D (build_dataframe q0 np.flatten).cells = _
          rw [serializeCsv_false, hD1, String.append_assoc]

/-- C2 (amended): the streaming csv sink — which writes its header exactly
once, before the first flush — produces byte-identical output to the
buffered csv sink serializing all the rows at once, provided (i) at least
one row was consumed and (ii) every per-page frame infers the same column
dtypes as the whole-table frame. Both provisos are necessary: see the
counterexample theorem for the divergences without them (and for the json
format, where the two sinks differ by design). -/
theorem streaming_buffered_csv_eq (fetch : Nat → Payload) (batch fuel : Nat)
    (content : String) (q : Query) (sampled : Bool) (pages : List (List RawRow))
    (h : fetch_chunk_all_pages_streaming fetch batch .csv fuel =
      .ok (content, q, sampled, pages))
    (hne : pages.flatten ≠ [])
    (hdt : ∀ p ∈ pages, frameDtypes (build_dataframe q p) =
      frameDtypes (build_dataframe q pages.flatten)) :
    content = buffered_output q pages.flatten .csv := by
  cases fuel with
  | zero => exact absurd h (by simp [fetch_chunk_all_pages_streaming, streamAux])
  | succ k =>
    unfold fetch_chunk_all_pages_streaming at h
    cases hdata : (fetch 1).data with
    | none =>
      rw [streamAux] at h
      rw [hdata] at h
      simp at h
    | some dataRows =>
      rw [streamAux_step_some fetch batch .csv k 1 none false false "" [] dataRows hdata] at h
      simp only [Option.getD_none] at h
      by_cases hemp : dataRows.isEmpty
      · rw [if_pos hemp] at h
        simp only [Except.ok.injEq, Prod.mk.injEq] at h
        obtain ⟨-, -, -, hp⟩ := h
        rw [← hp] at hne
        simp at hne
      · rw [if_neg hemp] at h
        by_cases hshort : dataRows.length < batch
        · rw [if_pos hshort] at h
          simp only [Except.ok.injEq, Prod.mk.injEq] at h
          obtain ⟨hc, hq, -, hp⟩ := h
          rw [← hc, ← hp, ← hq]
          have hflat : (([] : List (List RawRow)) ++ [dataRows]).flatten = dataRows := by simp
          rw [hflat]
          rfl
        · rw [if_neg hshort] at h
          obtain ⟨hq, np, hpf, hcontent⟩ :=
            streamAux_csv_steady fetch batch (fetch 1).query
              (frameDtypes (build_dataframe q pages.flatten)) k (1 + batch) _ _ _ _ _ _ _ h
          subst hq
          have hflat : (([] : List (List RawRow)) ++ [dataRows] ++ np).flatten =
              dataRows ++ np.flatten := by simp
          have hDnp : ∀ p ∈ np,
              frameDtypes (build_dataframe (fetch 1).query p) =
                frameDtypes (build_dataframe (fetch 1).query pages.flatten) :=
            fun p hp => hdt p (by rw [hpf]; simp [hp])
          have hD1 : frameDtypes (build_dataframe (fetch 1).query dataRows) =
              frameDtypes (build_dataframe (fetch 1).query (dataRows ++ np.flatten)) := by
            have hm := hdt dataRows (by rw [hpf]; simp)
            rwa [hpf, hflat] at hm
          rw [hcontent hDnp, hpf, hflat]
          show serializeCsv (build_dataframe (fetch 1).query dataRows) true ++
              csvBodyWith
                (frameDtypes (build_dataframe (fetch 1).query (dataRows ++ np.flatten)))
                (build_dataframe (fetch 1).query np.flatten).cells =
            serializeCsv (build_dataframe (fetch 1).query (dataRows ++ np.flatten)) true
          rw [serializeCsv_true (build_dataframe (fetch 1).query dataRows),
              serializeCsv_true (build_dataframe (fetch 1).query (dataRows ++ np.flatten)),
              serializeCsv_false (build_dataframe (fetch 1).query dataRows),
              serializeCsv_false (build_dataframe (fetch 1).query (dataRows ++ np.flatten)),
              hD1, build_dataframe_cells_append, csvBodyWith_append, String.append_assoc]
          rfl

/-- Witness for C2 (amended): a one-page csv run of an all-int column
satisfies both provisos and produces exactly the buffered serialization of
its rows. -/
theorem streaming_buffered_csv_eq_witness :
    fetch_chunk_all_pages_streaming fetchOne 2 .csv 1 =
      .ok ("visits\n5\n", sampleQuery, false, [[sampleRow]]) ∧
    "visits\n5\n" = buffered_output sampleQuery [[sampleRow]].flatten .csv := by
  constructor
  · decide
  · exact streaming_buffered_csv_eq fetchOne 2 1 "visits\n5\n" sampleQuery false
      [[sampleRow]] (by decide) (by decide) (by decide)

/-- C2 (counterexample): three refutations of unconditional byte-identity.
(1) json: for the same single row the streaming sink writes one NDJSON line
while the buffered sink writes one JSON array, so the bytes differ by
design. (2) csv under dtype divergence: with an int row on one page and a
null row on the next, the streaming sink prints the int as `5` (its
one-page frame infers an int column) while the buffered sink prints `5.0`
(the whole-table column, holding the null, infers a float column). (3) csv
with zero rows consumed: the streaming sink writes nothing while the
buffered sink still writes the header line. -/
theorem streaming_buffered_counterexample :
    (fetch_chunk_all_pages_streaming fetchOne 2 .json 1 =
        .ok ("\x7b\"visits\":5\x7d\n", sampleQuery, false, [[sampleRow]]) ∧
      buffered_output sampleQuery [[sampleRow]].flatten .json = "[\x7b\"visits\":5\x7d]" ∧
      ("\x7b\"visits\":5\x7d\n" : String) ≠ "[\x7b\"visits\":5\x7d]") ∧
    (fetch_chunk_all_pages_streaming fetchMixed 1 .csv 3 =
        .ok ("visits\n5\n\n", sampleQuery, false, [[sampleRow], [rowNull]]) ∧
      buffered_output sampleQuery [[sampleRow], [rowNull]].flatten .csv =
        "visits\n5.0\n\n" ∧
      ("visits\n5\n\n" : String) ≠ "visits\n5.0\n\n") ∧
    (fetch_chunk_all_pages_streaming fetchEmpty 2 .csv 1 =
        .ok ("", sampleQuery, false, []) ∧
      buffered_output sampleQuery ([] : List (List RawRow)).flatten .csv = "visits\n" ∧
      ("" : String) ≠ "visits\n") := by
  refine ⟨⟨by decide, by decide, by decide⟩, ⟨by decide, by decide, by decide⟩,
    by decide, by decide, by decide⟩

/-! ## C1 — range partitioning

The development below establishes the calendar facts needed for the
partition theorem: the day-count function `rataDie` advances by exactly one
under `succDate` on valid dates, is injective on valid dates, and each of
the three boundary functions of `auto_date_chunks` jumps to a strictly later
first-of-unit date. -/

/-- Every month has between 28 and 31 days. -/
theorem daysInMonth_bounds (y m : Nat) : 28 ≤ daysInMonth y m ∧ daysInMonth y m ≤ 31 := by
  unfold daysInMonth
  split_ifs <;> omega

/-- Peeling the last month off the day count before a month. -/
theorem daysBeforeMonth_succ (y m : Nat) (hm : 1 ≤ m) :
    daysBeforeMonth y (m + 1) = daysBeforeMonth y m + daysInMonth y m := by
  obtain ⟨k, rfl⟩ : ∃ k, m = k + 1 := ⟨m - 1, by omega⟩
  unfold daysBeforeMonth
  simp only [Nat.add_sub_cancel]
  rw [List.range_succ]
  simp

/-- The day count before a month is monotone in the month. -/
theorem daysBeforeMonth_mono (y : Nat) {m m' : Nat} (h1 : 1 ≤ m) (h : m ≤ m') :
    daysBeforeMonth y m ≤ daysBeforeMonth y m' := by
  induction m', h using Nat.le_induction with
  | base => exact le_refl _
  | succ n hmn ih =>
    rw [daysBeforeMonth_succ y n (by omega)]
    omega

/-- The concrete day count before December: 306 days plus February's. -/
theorem daysBeforeMonth_twelve (y : Nat) :
    daysBeforeMonth y 12 = 306 + daysInMonth y 2 := by
  show ((List.range 11).map (fun i => daysInMonth y (i + 1))).sum = _
  rw [show List.range 11 = [0, 1, 2, 3, 4, 5, 6, 7, 8, 9, 10] from rfl]
  simp only [List.map_cons, List.map_nil, List.sum_cons, List.sum_nil]
  rw [show daysInMonth y 1 = 31 from rfl, show daysInMonth y 3 = 31 from rfl,
      show daysInMonth y 4 = 30 from rfl, show daysInMonth y 5 = 31 from rfl,
      show daysInMonth y 6 = 30 from rfl, show daysInMonth y 7 = 31 from rfl,
      show daysInMonth y 8 = 31 from rfl, show daysInMonth y 9 = 30 from rfl,
      show daysInMonth y 10 = 31 from rfl, show daysInMonth y 11 = 30 from rfl,
      show daysInMonth y (1 + 1) = daysInMonth y 2 from rfl]
  omega

/-- The day count before a full year's thirteenth month: the year length. -/
theorem daysBeforeMonth_thirteen (y : Nat) :
    daysBeforeMonth y 13 = 337 + daysInMonth y 2 := by
  rw [daysBeforeMonth_succ y 12 (by omega), daysBeforeMonth_twelve y,
      show daysInMonth y 12 = 31 from rfl]
  omega

set_option maxHeartbeats 2000000 in
/-- Stepping the day count before a year by one year adds the year length. -/
theorem daysBeforeYear_succ (y : Nat) (hy : 1 ≤ y) :
    daysBeforeYear (y + 1) = daysBeforeYear y + 337 + daysInMonth y 2 := by
  have hd : daysInMonth y 2 = if isLeap y then 29 else 28 := rfl
  have hleap : isLeap y = true ↔ ((y % 4 = 0 ∧ y % 100 ≠ 0) ∨ y % 400 = 0) := by
    simp [isLeap]
  rw [hd]
  unfold daysBeforeYear
  by_cases h : isLeap y = true
  · have hp := hleap.mp h
    rw [if_pos h]
    simp only [Nat.add_sub_cancel]
    omega
  · have hp : ¬((y % 4 = 0 ∧ y % 100 ≠ 0) ∨ y % 400 = 0) := fun hc => h (hleap.mpr hc)
    rw [if_neg h]
    simp only [Nat.add_sub_cancel]
    omega

/-- One step of monotonicity of the day count before a year. -/
theorem daysBeforeYear_le_succ (y : Nat) : daysBeforeYear y ≤ daysBeforeYear (y + 1) := by
  unfold daysBeforeYear
  omega

/-- The day count before a year is monotone in the year. -/
theorem daysBeforeYear_mono {y y' : Nat} (h : y ≤ y') :
    daysBeforeYear y ≤ daysBeforeYear y' := by
  induction y', h using Nat.le_induction with
  | base => exact le_refl _
  | succ n hmn ih => exact le_trans ih (daysBeforeYear_le_succ n)

/-- On a valid date, the day ordinal of the next day is the successor. -/
theorem rataDie_succDate (d : Date) (hv : ValidDate d) :
    rataDie (succDate d) = rataDie d + 1 := by
  obtain ⟨y, m, dd⟩ := d
  obtain ⟨hy, hm1, hm2, hd1, hd2⟩ := hv
  unfold succDate
  simp only at hy hm1 hm2 hd1 hd2 ⊢
  by_cases hlt : dd < daysInMonth y m
  · rw [if_pos hlt]
    unfold rataDie
    simp only
    omega
  · rw [if_neg hlt]
    have hdd : dd = daysInMonth y m := by omega
    by_cases h12 : m < 12
    · rw [if_pos h12]
      unfold rataDie
      simp only
      rw [daysBeforeMonth_succ y m hm1]
      omega
    · rw [if_neg h12]
      have hm' : m = 12 := by omega
      subst hm'
      have h31 : daysInMonth y 12 = 31 := rfl
      unfold rataDie
      simp only
      rw [daysBeforeYear_succ y hy, daysBeforeMonth_twelve y,
          show daysBeforeMonth (y + 1) 1 = 0 from rfl]
      omega

/-- The next day of a valid date is valid. -/
theorem validDate_succDate (d : Date) (hv : ValidDate d) : ValidDate (succDate d) := by
  obtain ⟨y, m, dd⟩ := d
  obtain ⟨hy, hm1, hm2, hd1, hd2⟩ := hv
  simp only at hy hm1 hm2 hd1 hd2
  have hb1 := (daysInMonth_bounds y (m + 1)).1
  have hb2 := (daysInMonth_bounds (y + 1) 1).1
  unfold succDate
  simp only
  split_ifs with h1 h2
  · exact ⟨hy, hm1, hm2, (by omega : 1 ≤ dd + 1), h1⟩
  · exact ⟨hy, (by omega : 1 ≤ m + 1), h2, le_refl 1,
      (by omega : 1 ≤ daysInMonth y (m + 1))⟩
  · exact ⟨(by omega : 1 ≤ y + 1), le_refl 1, (by omega : (1 : Nat) ≤ 12), le_refl 1,
      (by omega : 1 ≤ daysInMonth (y + 1) 1)⟩

/-- Bounding the in-year day count of a valid date by the year length. -/
theorem dayOfYear_le (y m dd : Nat) (hm1 : 1 ≤ m) (hm2 : m ≤ 12)
    (hd2 : dd ≤ daysInMonth y m) :
    daysBeforeMonth y m + dd ≤ 337 + daysInMonth y 2 := by
  have hs := daysBeforeMonth_succ y m hm1
  have hmono := daysBeforeMonth_mono y (show 1 ≤ m + 1 by omega) (show m + 1 ≤ 13 by omega)
  have h13 := daysBeforeMonth_thirteen y
  omega

/-- A date in an earlier year has a strictly smaller day ordinal. -/
theorem rataDie_lt_of_year_lt (d d' : Date) (hv : ValidDate d) (hv' : ValidDate d')
    (h : d.year < d'.year) : rataDie d < rataDie d' := by
  obtain ⟨y, m, dd⟩ := d
  obtain ⟨y', m', dd'⟩ := d'
  obtain ⟨hy, hm1, hm2, hd1, hd2⟩ := hv
  obtain ⟨hy', hm1', hm2', hd1', hd2'⟩ := hv'
  simp only at h hy hm1 hm2 hd1 hd2 hy' hm1' hm2' hd1' hd2'
  have hdoy := dayOfYear_le y m dd hm1 hm2 hd2
  have hstep := daysBeforeYear_succ y hy
  have hmono : daysBeforeYear (y + 1) ≤ daysBeforeYear y' := daysBeforeYear_mono (by omega)
  have hnn : 0 ≤ daysBeforeMonth y' m' := Nat.zero_le _
  unfold rataDie
  simp only
  omega

/-- Within a year, a date in an earlier month has a strictly smaller day
ordinal. -/
theorem rataDie_lt_of_month_lt (y m dd m' dd' : Nat) (hm1 : 1 ≤ m)
    (hd2 : dd ≤ daysInMonth y m) (hd1' : 1 ≤ dd') (h : m < m') (hm2' : m' ≤ 12) :
    rataDie ⟨y, m, dd⟩ < rataDie ⟨y, m', dd'⟩ := by
  have hs := daysBeforeMonth_succ y m hm1
  have hmono := daysBeforeMonth_mono y (show 1 ≤ m + 1 by omega) (show m + 1 ≤ m' by omega)
  unfold rataDie
  simp only
  omega

/-- The day ordinal is injective on valid dates. -/
theorem rataDie_inj (a b : Date) (hva : ValidDate a) (hvb : ValidDate b)
    (h : rataDie a = rataDie b) : a = b := by
  obtain ⟨y, m, dd⟩ := a
  obtain ⟨y', m', dd'⟩ := b
  obtain ⟨hy, hm1, hm2, hd1, hd2⟩ := hva
  obtain ⟨hy', hm1', hm2', hd1', hd2'⟩ := hvb
  simp only at hy hm1 hm2 hd1 hd2 hy' hm1' hm2' hd1' hd2'
  rcases Nat.lt_trichotomy y y' with hyy | rfl | hyy
  · exact absurd h (Nat.ne_of_lt (rataDie_lt_of_year_lt ⟨y, m, dd⟩ ⟨y', m', dd'⟩
      ⟨hy, hm1, hm2, hd1, hd2⟩ ⟨hy', hm1', hm2', hd1', hd2'⟩ hyy))
  · rcases Nat.lt_trichotomy m m' with hmm | rfl | hmm
    · exact absurd h (Nat.ne_of_lt (rataDie_lt_of_month_lt y m dd m' dd' hm1 hd2 hd1' hmm hm2'))
    · unfold rataDie at h
      simp only at h
      have : dd = dd' := by omega
      rw [this]
    · exact absurd h.symm
        (Nat.ne_of_lt (rataDie_lt_of_month_lt y m' dd' m dd hm1' hd2' hd1 hmm hm2))
  · exact absurd h.symm (Nat.ne_of_lt (rataDie_lt_of_year_lt ⟨y', m', dd'⟩ ⟨y, m, dd⟩
      ⟨hy', hm1', hm2', hd1', hd2'⟩ ⟨hy, hm1, hm2, hd1, hd2⟩ hyy))

/-- The day before a valid first-of-unit date (other than the very first
representable month) is valid, and stepping it forward again recovers the
boundary. -/
theorem predDate_firstOfUnit (b : Date) (hv : ValidDate b) (hday : b.day = 1)
    (hnotmin : 2 ≤ b.month ∨ 2 ≤ b.year) :
    ValidDate (predDate b) ∧ succDate (predDate b) = b := by
  obtain ⟨y, m, dd⟩ := b
  simp only at hday hnotmin
  subst hday
  obtain ⟨hy, hm1, hm2, -, -⟩ := hv
  simp only at hy hm1 hm2
  unfold predDate
  simp only
  rw [if_neg (by omega)]
  by_cases hm : 1 < m
  · rw [if_pos hm]
    have hb := (daysInMonth_bounds y (m - 1)).1
    constructor
    · exact ⟨hy, (by omega : 1 ≤ m - 1), (by omega : m - 1 ≤ 12),
        (by omega : 1 ≤ daysInMonth y (m - 1)), le_refl _⟩
    · unfold succDate
      simp only
      rw [if_neg (by omega), if_pos (by omega : m - 1 < 12)]
      have hmm : m - 1 + 1 = m := by omega
      rw [hmm]
  · rw [if_neg hm]
    have hm1' : m = 1 := by omega
    have hy2 : 2 ≤ y := by
      rcases hnotmin with hc | hc
      · omega
      · exact hc
    subst hm1'
    have h31 : daysInMonth (y - 1) 12 = 31 := rfl
    constructor
    · exact ⟨(by omega : 1 ≤ y - 1), (by omega : (1 : Nat) ≤ 12), le_refl _,
        (by omega : (1 : Nat) ≤ 31), (by omega : (31 : Nat) ≤ daysInMonth (y - 1) 12)⟩
    · unfold succDate
      simp only
      rw [h31]
      rw [if_neg (by omega), if_neg (by omega)]
      have hyy : y - 1 + 1 = y := by omega
      rw [hyy]

/-- The source's `(replace(day=28) + 4 days).replace(day=1)` computes the
first day of the following month, for every valid date. -/
theorem nextMonthStart_eq (d : Date) (hv : ValidDate d) :
    nextMonthStart d =
      if d.month < 12 then ⟨d.year, d.month + 1, 1⟩ else ⟨d.year + 1, 1, 1⟩ := by
  obtain ⟨y, m, dd⟩ := d
  obtain ⟨hy, hm1, hm2, -, -⟩ := hv
  simp only at hm1 hm2 ⊢
  unfold nextMonthStart
  interval_cases m <;>
    first
    | (cases hL : isLeap y <;>
        simp [addDays, succDate, daysInMonth, hL])
    | simp [addDays, succDate, daysInMonth]

/-- `NextOK` for the month-granularity boundary function. -/
theorem nextOK_nextMonthStart : NextOK nextMonthStart := by
  intro d hv
  rw [nextMonthStart_eq d hv]
  obtain ⟨y, m, dd⟩ := d
  obtain ⟨hy, hm1, hm2, hd1, hd2⟩ := hv
  simp only at hy hm1 hm2 hd1 hd2 ⊢
  by_cases hm : m < 12
  · rw [if_pos hm]
    have hb := (daysInMonth_bounds y (m + 1)).1
    refine ⟨⟨hy, (by omega : 1 ≤ m + 1), (by omega : m + 1 ≤ 12), le_refl 1,
        (by omega : 1 ≤ daysInMonth y (m + 1))⟩,
      ?_, rfl, Or.inl ((by omega : 2 ≤ m + 1))⟩
    exact rataDie_lt_of_month_lt y m dd (m + 1) 1 hm1 hd2 (le_refl 1) (by omega) (by omega)
  · rw [if_neg hm]
    have hb := (daysInMonth_bounds (y + 1) 1).1
    refine ⟨⟨(by omega : 1 ≤ y + 1), le_refl 1, (by omega : (1 : Nat) ≤ 12), le_refl 1,
        (by omega : 1 ≤ daysInMonth (y + 1) 1)⟩,
      ?_, rfl, Or.inr ((by omega : 2 ≤ y + 1))⟩
    exact rataDie_lt_of_year_lt ⟨y, m, dd⟩ ⟨y + 1, 1, 1⟩
      ⟨hy, hm1, hm2, hd1, hd2⟩
      ⟨(by omega : 1 ≤ y + 1), le_refl 1, (by omega : (1 : Nat) ≤ 12), le_refl 1,
        (by omega : 1 ≤ daysInMonth (y + 1) 1)⟩
      (by omega : y < y + 1)

/-- Closed form of the next-quarter computation
`((month - 1) // 3 + 1) * 3 + 1` with its year rollover. -/
theorem nextQuarterStart_eq (d : Date) (hv : ValidDate d) :
    nextQuarterStart d =
      if d.month ≤ 3 then ⟨d.year, 4, 1⟩
      else if d.month ≤ 6 then ⟨d.year, 7, 1⟩
      else if d.month ≤ 9 then ⟨d.year, 10, 1⟩
      else ⟨d.year + 1, 1, 1⟩ := by
  obtain ⟨y, m, dd⟩ := d
  obtain ⟨-, hm1, hm2, -, -⟩ := hv
  simp only at hm1 hm2 ⊢
  unfold nextQuarterStart
  interval_cases m <;> simp

/-- `NextOK` for the quarter-granularity boundary function. -/
theorem nextOK_nextQuarterStart : NextOK nextQuarterStart := by
  intro d hv
  rw [nextQuarterStart_eq d hv]
  obtain ⟨y, m, dd⟩ := d
  obtain ⟨hy, hm1, hm2, hd1, hd2⟩ := hv
  simp only at hy hm1 hm2 hd1 hd2 ⊢
  have hq : ∀ q : Nat, m < q → q ≤ 12 →
      ValidDate ⟨y, q, 1⟩ ∧ rataDie ⟨y, m, dd⟩ < rataDie ⟨y, q, 1⟩ := by
    intro q h1 h2
    have hb := (daysInMonth_bounds y q).1
    exact ⟨⟨hy, (by omega : 1 ≤ q), h2, le_refl 1, (by omega : 1 ≤ daysInMonth y q)⟩,
      rataDie_lt_of_month_lt y m dd q 1 hm1 hd2 (le_refl 1) h1 h2⟩
  have hb := (daysInMonth_bounds (y + 1) 1).1
  have hvn : ValidDate (⟨y + 1, 1, 1⟩ : Date) :=
    ⟨(by omega : 1 ≤ y + 1), le_refl 1, (by omega : (1 : Nat) ≤ 12), le_refl 1,
      (by omega : 1 ≤ daysInMonth (y + 1) 1)⟩
  have hltn : rataDie ⟨y, m, dd⟩ < rataDie ⟨y + 1, 1, 1⟩ :=
    rataDie_lt_of_year_lt _ _ ⟨hy, hm1, hm2, hd1, hd2⟩ hvn (by omega : y < y + 1)
  by_cases h3 : m ≤ 3
  · rw [if_pos h3]
    exact ⟨(hq 4 (by omega) (by omega)).1, (hq 4 (by omega) (by omega)).2, rfl,
      Or.inl (by omega : (2 : Nat) ≤ 4)⟩
  · rw [if_neg h3]
    by_cases h6 : m ≤ 6
    · rw [if_pos h6]
      exact ⟨(hq 7 (by omega) (by omega)).1, (hq 7 (by omega) (by omega)).2, rfl,
        Or.inl (by omega : (2 : Nat) ≤ 7)⟩
    · rw [if_neg h6]
      by_cases h9 : m ≤ 9
      · rw [if_pos h9]
        exact ⟨(hq 10 (by omega) (by omega)).1, (hq 10 (by omega) (by omega)).2, rfl,
          Or.inl (by omega : (2 : Nat) ≤ 10)⟩
      · rw [if_neg h9]
        exact ⟨hvn, hltn, rfl, Or.inr (by omega : 2 ≤ y + 1)⟩

/-- `NextOK` for the year-granularity boundary function. -/
theorem nextOK_nextYearStart : NextOK nextYearStart := by
  intro d hv
  obtain ⟨y, m, dd⟩ := d
  obtain ⟨hy, hm1, hm2, hd1, hd2⟩ := hv
  simp only at hy hm1 hm2 hd1 hd2
  unfold nextYearStart
  have hb := (daysInMonth_bounds (y + 1) 1).1
  have hvn : ValidDate (⟨y + 1, 1, 1⟩ : Date) :=
    ⟨(by omega : 1 ≤ y + 1), le_refl 1, (by omega : (1 : Nat) ≤ 12), le_refl 1,
      (by omega : 1 ≤ daysInMonth (y + 1) 1)⟩
  exact ⟨hvn, rataDie_lt_of_year_lt _ _ ⟨hy, hm1, hm2, hd1, hd2⟩ hvn (by omega : y < y + 1), rfl,
    Or.inr (by omega : 2 ≤ y + 1)⟩

/-- The loop yields nothing once the running start has passed the range end. -/
theorem chunkLoopAux_nil (next : Date → Date) (stop s : Date) (fuel : Nat)
    (h : rataDie stop < rataDie s) : chunkLoopAux next stop fuel s = [] := by
  cases fuel with
  | zero => rfl
  | succ k =>
    unfold chunkLoopAux
    rw [if_neg (by omega)]

/-- The partition invariant for one granularity branch: starting from any
valid date inside the range with enough fuel, the loop tiles the interval up
to the range end. -/
theorem chunkLoopAux_chunked (next : Date → Date) (hnext : NextOK next) (stop : Date)
    (hvstop : ValidDate stop) :
    ∀ (fuel : Nat) (s : Date), ValidDate s → rataDie s ≤ rataDie stop →
      rataDie stop < rataDie s + fuel →
      Chunked stop s (chunkLoopAux next stop fuel s) := by
  intro fuel
  induction fuel with
  | zero =>
    intro s _ hle hlt
    omega
  | succ k ih =>
    intro s hvs hle hfuel
    unfold chunkLoopAux
    rw [if_pos hle]
    show Chunked stop s
      ((s, if rataDie (predDate (next s)) ≤ rataDie stop then predDate (next s) else stop) ::
        chunkLoopAux next stop k (next s))
    obtain ⟨hvb, hlt, hday, hunit⟩ := hnext s hvs
    obtain ⟨hvpb, hsucc⟩ := predDate_firstOfUnit (next s) hvb hday hunit
    have hrpb : rataDie (predDate (next s)) + 1 = rataDie (next s) := by
      have hr := rataDie_succDate (predDate (next s)) hvpb
      rw [hsucc] at hr
      omega
    by_cases hpb : rataDie (predDate (next s)) ≤ rataDie stop
    · rw [if_pos hpb]
      by_cases heq : rataDie (predDate (next s)) = rataDie stop
      · have hpbeq : predDate (next s) = stop := rataDie_inj _ _ hvpb hvstop heq
        rw [hpbeq, chunkLoopAux_nil next stop (next s) k (by omega)]
        exact Chunked.last s hvs hle
      · refine Chunked.cons s (predDate (next s)) _ hvs hvpb (by omega) (by omega) ?_
        rw [hsucc]
        exact ih (next s) hvb (by omega) (by omega)
    · rw [if_neg hpb, chunkLoopAux_nil next stop (next s) k (by omega)]
      exact Chunked.last s hvs hle

/-- A chunked list is nonempty. -/
theorem Chunked.ne_nil {stop s : Date} {cs : List (Date × Date)}
    (h : Chunked stop s cs) : cs ≠ [] := by
  cases h <;> simp

/-- The first chunk of a chunked list starts at the range start. -/
theorem Chunked.head_start {stop s : Date} {cs : List (Date × Date)}
    (h : Chunked stop s cs) : cs.head?.map Prod.fst = some s := by
  cases h <;> rfl

/-- The final chunk of a chunked list ends at the range end. -/
theorem Chunked.last_stop {stop s : Date} {cs : List (Date × Date)}
    (h : Chunked stop s cs) : cs.getLast?.map Prod.snd = some stop := by
  induction h with
  | last s hv hle => rfl
  | cons s ce cs hvs hve h1 h2 htail ih =>
    cases cs with
    | nil => exact absurd rfl htail.ne_nil
    | cons c cs' =>
      rw [List.getLast?_cons_cons]
      exact ih

/-- Adjacency: every chunk after the first begins on the day after the
previous chunk ends. -/
theorem Chunked.adjacent {stop s : Date} {cs : List (Date × Date)}
    (h : Chunked stop s cs) :
    cs.Chain' (fun c c' : Date × Date => c'.1 = succDate c.2) := by
  induction h with
  | last _ _ _ => simp
  | cons s ce cs hvs hve h1 h2 htail ih =>
    cases cs with
    | nil => simp
    | cons c cs' =>
      refine List.chain'_cons.mpr ⟨?_, ih⟩
      have hh := htail.head_start
      simp only [List.head?_cons, Option.map_some] at hh
      exact Option.some.inj hh

/-- Every chunk of a chunked list is a nonempty interval inside the range. -/
theorem Chunked.inside {stop s : Date} {cs : List (Date × Date)}
    (h : Chunked stop s cs) :
    ∀ c ∈ cs, rataDie s ≤ rataDie c.1 ∧ rataDie c.1 ≤ rataDie c.2 ∧
      rataDie c.2 ≤ rataDie stop := by
  induction h with
  | last s hv hle =>
    intro c hc
    simp only [List.mem_singleton] at hc
    subst hc
    exact ⟨le_refl _, hle, le_refl _⟩
  | cons s ce cs hvs hve h1 h2 htail ih =>
    intro c hc
    rcases List.mem_cons.mp hc with rfl | hc
    · exact ⟨le_refl _, h1, (by omega : rataDie ce ≤ rataDie stop)⟩
    · have hin := ih c hc
      have hsucc : rataDie (succDate ce) = rataDie ce + 1 := rataDie_succDate ce hve
      have hsx : rataDie (succDate ce) ≤ rataDie c.1 := hin.1
      exact ⟨(by omega : rataDie s ≤ rataDie c.1), hin.2.1, hin.2.2⟩

/-- The chunks of a chunked list are pairwise disjoint, in order. -/
theorem Chunked.disjoint {stop s : Date} {cs : List (Date × Date)}
    (h : Chunked stop s cs) :
    cs.Pairwise (fun c c' : Date × Date => rataDie c.2 < rataDie c'.1) := by
  induction h with
  | last _ _ _ => simp
  | cons s ce cs hvs hve h1 h2 htail ih =>
    refine List.Pairwise.cons ?_ ih
    intro c' hc'
    have hin := (htail.inside c' hc').1
    have hsucc : rataDie (succDate ce) = rataDie ce + 1 := rataDie_succDate ce hve
    show rataDie ce < rataDie c'.1
    omega

/-- The chunks of a chunked list cover exactly the day interval of the
range. -/
theorem Chunked.cover {stop s : Date} {cs : List (Date × Date)}
    (h : Chunked stop s cs) :
    ∀ x : Nat, (rataDie s ≤ x ∧ x ≤ rataDie stop) ↔
      ∃ c ∈ cs, rataDie c.1 ≤ x ∧ x ≤ rataDie c.2 := by
  induction h with
  | last s hv hle =>
    intro x
    constructor
    · intro hx
      exact ⟨(s, stop), by simp, hx.1, hx.2⟩
    · rintro ⟨c, hc, h1, h2⟩
      simp only [List.mem_singleton] at hc
      subst hc
      exact ⟨h1, h2⟩
  | cons s ce cs hvs hve h1 h2 htail ih =>
    intro x
    have hsucc : rataDie (succDate ce) = rataDie ce + 1 := rataDie_succDate ce hve
    constructor
    · intro hx
      by_cases hle : x ≤ rataDie ce
      · exact ⟨(s, ce), List.mem_cons_self _ _, hx.1, hle⟩
      · obtain ⟨c, hc, hcx⟩ := (ih x).mp ⟨by omega, hx.2⟩
        exact ⟨c, List.mem_cons_of_mem _ hc, hcx⟩
    · rintro ⟨c, hc, hcx1, hcx2⟩
      rcases List.mem_cons.mp hc with rfl | hc
      · have hcx2' : x ≤ rataDie ce := hcx2
        exact ⟨hcx1, (by omega : x ≤ rataDie stop)⟩
      · have hx := (ih x).mpr ⟨c, hc, hcx1, hcx2⟩
        have hx1 : rataDie (succDate ce) ≤ x := hx.1
        exact ⟨(by omega : rataDie s ≤ x), hx.2⟩

/-- C1: for every pair of valid dates with start ≤ end and `split = true`,
`auto_date_chunks` succeeds and yields a chunk list whose first chunk starts
at the start date, whose last chunk ends at the end date, whose every later
chunk begins on the day after the previous chunk ends (contiguity), whose
chunks are pairwise disjoint nonempty sub-intervals of the range, and whose
union of day intervals is exactly the interval from start to end. -/
theorem auto_date_chunks_partition (d1 d2 : Date)
    (h1 : ValidDate d1) (h2 : ValidDate d2) (hle : rataDie d1 ≤ rataDie d2) :
    ∃ cs, auto_date_chunks d1 d2 true = .ok cs ∧
      cs.head?.map Prod.fst = some d1 ∧
      cs.getLast?.map Prod.snd = some d2 ∧
      cs.Chain' (fun c c' : Date × Date => c'.1 = succDate c.2) ∧
      cs.Pairwise (fun c c' : Date × Date => rataDie c.2 < rataDie c'.1) ∧
      (∀ c ∈ cs, rataDie d1 ≤ rataDie c.1 ∧ rataDie c.1 ≤ rataDie c.2 ∧
        rataDie c.2 ≤ rataDie d2) ∧
      (∀ x : Nat, (rataDie d1 ≤ x ∧ x ≤ rataDie d2) ↔
        ∃ c ∈ cs, rataDie c.1 ≤ x ∧ x ≤ rataDie c.2) := by
  have hnext : NextOK (if rataDie d2 - rataDie d1 ≤ 365 then nextMonthStart
      else if rataDie d2 - rataDie d1 ≤ 1825 then nextQuarterStart else nextYearStart) := by
    split_ifs with ha hb
    · exact nextOK_nextMonthStart
    · exact nextOK_nextQuarterStart
    · exact nextOK_nextYearStart
  have hchunked := chunkLoopAux_chunked _ hnext d2 h2
    (rataDie d2 - rataDie d1 + 1) d1 h1 hle (by omega)
  refine ⟨_, ?_, hchunked.head_start, hchunked.last_stop, hchunked.adjacent,
    hchunked.disjoint, hchunked.inside, hchunked.cover⟩
  unfold auto_date_chunks
  rw [if_neg (by omega)]
  rfl

/-- Witness for C1: the spec's concrete scenario — the range 2024-01-01 to
2024-01-31 is partitioned (into the single month-aligned chunk), with all
the partition properties holding. -/
theorem auto_date_chunks_partition_witness :
    ∃ cs, auto_date_chunks ⟨2024, 1, 1⟩ ⟨2024, 1, 31⟩ true = .ok cs ∧
      cs.head?.map Prod.fst = some ⟨2024, 1, 1⟩ ∧
      cs.getLast?.map Prod.snd = some ⟨2024, 1, 31⟩ ∧
      cs.Chain' (fun c c' : Date × Date => c'.1 = succDate c.2) ∧
      cs.Pairwise (fun c c' : Date × Date => rataDie c.2 < rataDie c'.1) ∧
      (∀ c ∈ cs, rataDie ⟨2024, 1, 1⟩ ≤ rataDie c.1 ∧ rataDie c.1 ≤ rataDie c.2 ∧
        rataDie c.2 ≤ rataDie ⟨2024, 1, 31⟩) ∧
      (∀ x : Nat, (rataDie ⟨2024, 1, 1⟩ ≤ x ∧ x ≤ rataDie ⟨2024, 1, 31⟩) ↔
        ∃ c ∈ cs, rataDie c.1 ≤ x ∧ x ≤ rataDie c.2) :=
  auto_date_chunks_partition ⟨2024, 1, 1⟩ ⟨2024, 1, 31⟩ (by decide) (by decide) (by decide)

end SMAIPL
